import Mathlib

set_option maxRecDepth 4000

/-!
Shallow embedding of stdlib/public/runtime/BytecodeLayouts.cpp: the generic
value-witness interpreter over layout strings, with its dispatch tables, the
single-payload-enum classifier, the take-init path and the one-shot
resilient-accessor patch pass. Machine memory is byte-addressed; the opaque
native callables (retain/release families) and the recursive calls into a
sub-type's own value witnesses are recorded as events of a trace rather than
executed, since their bodies live outside this file. A 64-bit platform is
assumed: size_t, uintptr_t and pointers are 8 bytes, little-endian.
-/

/-- Byte-addressed memory holding in-memory value instances: each address
stores one byte. -/
abbrev ByteMem := Nat → Nat

/-- Pointer width of the modelled platform (64-bit). -/
def ptrSize : Nat := 8

/-- layoutStringHeaderSize from the source: sizeof(uint64_t) + sizeof(size_t). -/
def layoutStringHeaderSize : Nat := 8 + ptrSize

/-- readBytes of the source: little-endian fixed-width read of `w` bytes at
offset `i` of a byte buffer. The source advances the offset reference by the
width; callers here advance it explicitly. Out-of-range bytes read as 0 (the
source trusts its producer and never reads out of range on valid input). -/
def readBytes (l : List Nat) (i : Nat) : Nat → Nat
  | 0 => 0
  | w + 1 => l.getD i 0 % 256 + 256 * readBytes l (i + 1) w

/-- The little-endian byte decomposition of a value, width `w`. -/
def toLEBytes : Nat → Nat → List Nat
  | 0, _ => []
  | w + 1, v => v % 256 :: toLEBytes w (v / 256)

/-- writeBytes of the source: store `w` little-endian bytes of `v` at offset
`i` of a byte buffer. Stores past the end of the buffer are dropped, matching
the trusted-producer assumption that they never happen on valid input. -/
def writeBytes : List Nat → Nat → Nat → Nat → List Nat
  | l, _, 0, _ => l
  | l, i, w + 1, v => writeBytes (l.set i (v % 256)) (i + 1) w (v / 256)

/-- Little-endian fixed-width read of `w` bytes of value memory at address
`a`. Models the pointer-typed loads `*(uintptr_t *)p` and the fixed-width
loads of readTagBytes. -/
def readMemLE (m : ByteMem) (a : Nat) : Nat → Nat
  | 0 => 0
  | w + 1 => m a % 256 + 256 * readMemLE m (a + 1) w

/-- The effect of memcpy(dest, src, len) on byte memory. -/
def memcpyMem (m : ByteMem) (dest src len : Nat) : ByteMem :=
  fun a => if dest ≤ a ∧ a < dest + len then m (src + (a - dest)) else m a

/-- Sign extension of the low 32 bits of a value, as the source's cast chain
(uintptr_t)(intptr_t)(int32_t) applied to a loaded word. -/
def signExt32 (v : Nat) : Int :=
  let r : Nat := v % 2 ^ 32
  if r < 2 ^ 31 then (r : Int) else (r : Int) - 2 ^ 32

/-- Modelled from the spec: the numeric values of the RefCountingKind tag
byte. The header declaring the enum is not among the provided sources; the
numbering is reconstructed from the spec's list of kinds (section 3) together
with the row order of the two fifteen-row dispatch tables in
BytecodeLayouts.cpp, which are indexed directly by the tag byte and whose
final row is the existential handler. End is 0 and the three null rows sit at
11 through 13, with Metatype at 12 never dispatched through a table. -/
def tagEnd : Nat := 0
def tagError : Nat := 1
def tagNativeStrong : Nat := 2
def tagNativeUnowned : Nat := 3
def tagNativeWeak : Nat := 4
def tagUnknown : Nat := 5
def tagUnknownUnowned : Nat := 6
def tagUnknownWeak : Nat := 7
def tagBridge : Nat := 8
def tagBlock : Nat := 9
def tagObjC : Nat := 10
def tagCustom : Nat := 11
def tagMetatype : Nat := 12
def tagGeneric : Nat := 13
def tagExistential : Nat := 14
def tagResilient : Nat := 15
def tagSinglePayloadEnumSimple : Nat := 16

/-- The external Type Metadata capability of the spec: size, bitwise
takability, inline-ness of existential buffers, the attached layout string
and its base address, and resolution of a resilient metadata accessor (the
call of the accessor function, at a given code address, on the owning
metadata's generic-argument vector). Metadata values are identified by their
addresses, which value memory and layout strings store as 8-byte words. -/
structure Env where
  vwSize : Nat → Nat
  isBitwiseTakable : Nat → Bool
  isValueInline : Nat → Bool
  layoutOf : Nat → List Nat
  layoutBase : Nat → Nat
  resolveAccessor : Nat → Nat → Nat

/-- NumWords_ValueBuffer of the Swift ABI: an existential value buffer is
three words, with the type metadata pointer stored right after it. -/
def NumWords_ValueBuffer : Nat := 3

/-- getExistentialTypeMetadata: read the metadata pointer stored at word
index NumWords_ValueBuffer of the existential container at `obj`. -/
def getExistentialTypeMetadata (m : ByteMem) (obj : Nat) : Nat :=
  readMemLE m (obj + ptrSize * NumWords_ValueBuffer) 8

/-- getResilientTypeMetadata: read a pointer-wide word at the cursor, sign
extend its low 32 bits, add it to the absolute address of the cursor
position, and call the accessor found there on the owner's generic
arguments. Returns the resolved metadata and the advanced cursor. -/
def getResilientTypeMetadata (env : Env) (metadata : Nat) (base : Nat)
    (typeLayout : List Nat) (offset : Nat) : Nat × Nat :=
  let raw := readBytes typeLayout offset 8
  let fnAddr := (((base + offset : Int) + signExt32 raw).emod (2 ^ 64)).toNat
  (env.resolveAccessor metadata fnAddr, offset + 8)

/-- The opaque native callables referenced by the dispatch tables and the
open-coded take path. Their bodies are outside this file; calls of them are
recorded as trace events. -/
inductive RuntimeFn where
  | swift_errorRelease
  | swift_release
  | swift_unownedRelease
  | swift_weakDestroy
  | swift_unknownObjectRelease
  | swift_unknownObjectUnownedDestroy
  | swift_unknownObjectWeakDestroy
  | swift_bridgeObjectRelease
  | Block_release
  | swift_errorRetain
  | swift_retain
  | swift_unownedRetain
  | swift_weakCopyInit
  | swift_unknownObjectRetain
  | swift_unknownObjectUnownedCopyInit
  | swift_unknownObjectWeakCopyInit
  | swift_bridgeObjectRetain
  | Block_copyForwarder
  | objc_retain
  | swift_unknownObjectWeakTakeInit
  deriving DecidableEq

/-- Observable actions of a traversal. Calls of opaque native callables
carry their argument addresses or loaded pointers; recursive entries into a
sub-type's own witnesses carry the sub-metadata and the field addresses.
layoutWrite is a mutation of the layout string itself: it belongs to the
event alphabet so that the read-only discipline of the traversals is a
statement rather than a typing accident, and only the patch pass may emit
it. illFormedCall marks a callable invoked through a mismatched function
type, which no reachable table configuration produces. -/
inductive Event where
  | call1 (f : RuntimeFn) (arg : Nat)
  | call2 (f : RuntimeFn) (dest src : Nat)
  | vwDestroy (type addr : Nat)
  | vwInitWithCopy (type dest src : Nat)
  | vwInitWithTake (type dest src : Nat)
  | vwInitBufferWithCopyOfBuffer (type dest src : Nat)
  | layoutWrite (off val : Nat)
  | illFormedCall
  deriving DecidableEq

/-- The callable column of destroyTable: skipDestroy, a plain native
function, or the local existential_destroy helper. -/
inductive DestroyCallable where
  | skipD
  | fn (f : RuntimeFn)
  | existentialD
  deriving DecidableEq

/-- destroyTable of the source, row by row, SWIFT_OBJC_INTEROP enabled (the
spec lists the bridged-closure and dynamically-typed kinds as functioning
kinds). A row is the callable (none for the reserved null rows) and its
isIndirect flag. -/
def destroyTable : List (Option DestroyCallable × Bool) :=
  [ (some .skipD, false),
    (some (.fn .swift_errorRelease), true),
    (some (.fn .swift_release), true),
    (some (.fn .swift_unownedRelease), true),
    (some (.fn .swift_weakDestroy), false),
    (some (.fn .swift_unknownObjectRelease), true),
    (some (.fn .swift_unknownObjectUnownedDestroy), false),
    (some (.fn .swift_unknownObjectWeakDestroy), false),
    (some (.fn .swift_bridgeObjectRelease), true),
    (some (.fn .Block_release), true),
    (some (.fn .swift_unknownObjectRelease), true),
    (none, true),
    (none, true),
    (none, true),
    (some .existentialD, false) ]

/-- existential_destroy: read the dynamic metadata of the container; destroy
inline values through their own witness, release the box of out-of-line
values. -/
def existential_destroy (env : Env) (m : ByteMem) (obj : Nat) : List Event :=
  let md := getExistentialTypeMetadata m obj
  if env.isValueInline md then [.vwDestroy md obj]
  else [.call1 .swift_release (readMemLE m obj 8)]

/-- DestroyHandler::handleReference: look the tag up in destroyTable; a null
callable is a fatal dispatch (none); otherwise call the callable on the
pointer stored at the field (isIndirect) or on the field address itself. -/
def destroyReference (env : Env) (m : ByteMem) (addr tag aoff : Nat) :
    Option (List Event) :=
  match destroyTable.get? tag with
  | none => none
  | some (none, _) => none
  | some (some c, indirect) =>
    let p := if indirect then readMemLE m (addr + aoff) 8 else addr + aoff
    match c with
    | .skipD => some []
    | .fn f => some [.call1 f p]
    | .existentialD => some (existential_destroy env m p)

/-- The callable column of retainTable: skipRetain, a plain native function
(called with one argument when isSingle, with two otherwise), or the local
existential_initializeWithCopy helper. -/
inductive RetainCallable where
  | skipR
  | rfn (f : RuntimeFn)
  | existentialCopy
  deriving DecidableEq

/-- retainTable of the source, row by row, SWIFT_OBJC_INTEROP enabled. A row
is the callable (none for the reserved null rows) and its isSingle flag. -/
def retainTable : List (Option RetainCallable × Bool) :=
  [ (some .skipR, true),
    (some (.rfn .swift_errorRetain), true),
    (some (.rfn .swift_retain), true),
    (some (.rfn .swift_unownedRetain), true),
    (some (.rfn .swift_weakCopyInit), false),
    (some (.rfn .swift_unknownObjectRetain), true),
    (some (.rfn .swift_unknownObjectUnownedCopyInit), false),
    (some (.rfn .swift_unknownObjectWeakCopyInit), false),
    (some (.rfn .swift_bridgeObjectRetain), true),
    (some (.rfn .Block_copyForwarder), false),
    (some (.rfn .objc_retain), true),
    (none, true),
    (none, true),
    (none, true),
    (some .existentialCopy, false) ]

/-- existential_initializeWithCopy: read the dynamic metadata of the source
container and enter its initializeBufferWithCopyOfBuffer witness. -/
def existential_initializeWithCopy (m : ByteMem) (dest src : Nat) :
    List Event :=
  let md := getExistentialTypeMetadata m src
  [.vwInitBufferWithCopyOfBuffer md dest src]

/-- CopyHandler::handleReference: look the tag up in retainTable; a null
callable is a fatal dispatch (none); an isSingle callable is called on the
pointer stored at the destination field (the bulk copy has already run), a
two-argument callable on the destination and source field addresses. -/
def copyReference (m : ByteMem) (dest src tag aoff : Nat) :
    Option (List Event) :=
  match retainTable.get? tag with
  | none => none
  | some (none, _) => none
  | some (some c, isSingle) =>
    if isSingle then
      let p := readMemLE m (dest + aoff) 8
      match c with
      | .skipR => some []
      | .rfn f => some [.call1 f p]
      | .existentialCopy => some [.illFormedCall]
    else
      match c with
      | .skipR => some []
      | .rfn f => some [.call2 f (dest + aoff) (src + aoff)]
      | .existentialCopy =>
        some (existential_initializeWithCopy m (dest + aoff) (src + aoff))

/-- readTagBytes: fixed-width little-endian load of the discriminator bytes.
The source supports widths 1, 2, 4 and 8 and hits swift_unreachable on any
other width, modelled by none. -/
def readTagBytes (m : ByteMem) (addr : Nat) : Nat → Option Nat
  | 1 => some (readMemLE m addr 1)
  | 2 => some (readMemLE m addr 2)
  | 4 => some (readMemLE m addr 4)
  | 8 => some (readMemLE m addr 8)
  | _ => none

/-- Result of the enum payload classifier: whether the value currently holds
a payload (the classifier returned without consuming the trailing
refCountBytes/skip pair, so the parent loop runs the payload sub-layout),
and the final layout cursor and address offset. -/
structure SPESOut where
  hasPayload : Bool
  offset : Nat
  addrOffset : Nat
  deriving DecidableEq

/-- The noPayload tail of handleSinglePayloadEnumSimple: read the trailing
refCountBytes and skip pair, hop the cursor over the payload sub-layout and
the address offset over the enum's bytes. -/
def spesNoPayload (typeLayout : List Nat) (offset addrOffset : Nat) : SPESOut :=
  let refCountBytes := readBytes typeLayout offset 8
  let skip := readBytes typeLayout (offset + 8) 8
  ⟨false, offset + 16 + refCountBytes, addrOffset + skip⟩

/-- handleSinglePayloadEnumSimple: decode the 64-bit parameter word into
extraTagBytesPattern (top 2 bits), xiTagBytesPattern (next 3 bits) and
xiTagBytesOffset (low 32 bits). A nonzero extra tag area after the payload
means no payload (goto noPayload). Otherwise, with extra-inhabitant bits
present, an observed value at or above xiTagValueCount is a genuine payload
(early return); below it, no payload. With neither pattern set, control in
the source falls through the noPayload label, so the enum range is skipped.
none models the swift_unreachable of an unsupported tag-byte width. -/
def handleSinglePayloadEnumSimple (typeLayout : List Nat) (offset0 : Nat)
    (m : ByteMem) (addr addrOffset : Nat) : Option SPESOut :=
  let bco := readBytes typeLayout offset0 8
  let offset := offset0 + 8
  let extraTagBytesPattern := bco / 2 ^ 62
  let xiTagBytesPattern := bco / 2 ^ 59 % 8
  let xiTagBytesOffset := bco % 2 ^ 32
  let afterExtra : Option (Bool × Nat) :=
    if extraTagBytesPattern ≠ 0 then
      let extraTagBytes := 2 ^ (extraTagBytesPattern - 1)
      let payloadSize := readBytes typeLayout offset 8
      match readTagBytes m (addr + addrOffset + payloadSize) extraTagBytes with
      | none => none
      | some tagBytes =>
        if tagBytes ≠ 0 then some (true, offset + 8 + 16)
        else some (false, offset + 8)
    else some (false, offset + 8)
  match afterExtra with
  | none => none
  | some (gotoNoPayload, offset1) =>
    if gotoNoPayload then some (spesNoPayload typeLayout offset1 addrOffset)
    else
      if xiTagBytesPattern ≠ 0 then
        let zeroTagValue := readBytes typeLayout offset1 8
        let xiTagValues := readBytes typeLayout (offset1 + 8) 8
        let offset2 := offset1 + 16
        let xiTagBytes := 2 ^ (xiTagBytesPattern - 1)
        match readTagBytes m (addr + addrOffset + xiTagBytesOffset) xiTagBytes with
        | none => none
        | some raw =>
          let tagBytes := (raw + (2 ^ 64 - zeroTagValue)) % 2 ^ 64
          if tagBytes ≥ xiTagValues then some ⟨true, offset2 + 16, addrOffset⟩
          else some (spesNoPayload typeLayout offset2 addrOffset)
      else some (spesNoPayload typeLayout (offset1 + 16) addrOffset)

/-- The handler strategy of the traversal template: how Metatype (and
resolved Resilient) sub-fields are entered, which value address and memory
the enum classifier reads, and how a concrete ownership tag is dispatched
(none = null callable, fatal). -/
structure TravHandler where
  onMetatype : Nat → Nat → List Event
  spesMem : ByteMem
  spesBase : Nat
  onReference : Nat → Nat → Option (List Event)

/-- One step outcome of handleNextRefCount: the End entry, a fatal dispatch,
or a completed entry with the advanced cursor, address offset and events. -/
inductive StepRes where
  | ended (offset addrOffset : Nat)
  | stepped (offset addrOffset : Nat) (events : List Event)
  | fatalStep
  deriving DecidableEq

/-- handleNextRefCount: read the 64-bit entry word, split it into the 8-bit
tag and 56-bit skip, advance the address offset by the skip, then branch on
End, Metatype, Resilient and SinglePayloadEnumSimple, every other tag going
through the handler's reference dispatch. -/
def handleNextRefCount (H : TravHandler) (env : Env) (metadata : Nat)
    (typeLayout : List Nat) (base : Nat) (offset addrOffset : Nat) : StepRes :=
  let word := readBytes typeLayout offset 8
  let offset := offset + 8
  let tag := word / 2 ^ 56
  let skip := word % 2 ^ 56
  let addrOffset := addrOffset + skip
  if tag = tagEnd then .ended offset addrOffset
  else if tag = tagMetatype then
    let type := readBytes typeLayout offset 8
    .stepped (offset + 8) addrOffset (H.onMetatype type addrOffset)
  else if tag = tagResilient then
    let r := getResilientTypeMetadata env metadata base typeLayout offset
    .stepped r.2 addrOffset (H.onMetatype r.1 addrOffset)
  else if tag = tagSinglePayloadEnumSimple then
    match handleSinglePayloadEnumSimple typeLayout offset H.spesMem H.spesBase addrOffset with
    | none => .fatalStep
    | some out => .stepped out.offset out.addrOffset []
  else
    match H.onReference tag addrOffset with
    | none => .fatalStep
    | some evs => .stepped offset addrOffset evs

/-- Outcome of a whole traversal: normal completion with the event trace, a
fatal dispatch, or exhaustion of the step budget (the source's while loop
has no budget; a budget at least the entry count makes the two agree). -/
inductive TravResult where
  | ok (events : List Event)
  | fatal
  | outOfFuel
  deriving DecidableEq

/-- The while loop of handleRefCounts: step entries until End. -/
def handleRefCountsLoop (H : TravHandler) (env : Env) (metadata : Nat)
    (typeLayout : List Nat) (base : Nat) : Nat → Nat → Nat → TravResult
  | 0, _, _ => .outOfFuel
  | fuel + 1, offset, addrOffset =>
    match handleNextRefCount H env metadata typeLayout base offset addrOffset with
    | .ended _ _ => .ok []
    | .fatalStep => .fatal
    | .stepped o a evs =>
      match handleRefCountsLoop H env metadata typeLayout base fuel o a with
      | .ok rest => .ok (evs ++ rest)
      | .fatal => .fatal
      | .outOfFuel => .outOfFuel

/-- handleRefCounts: fetch the metadata's layout string and walk its entries
from the end of the header, the address offset starting at zero. -/
def handleRefCounts (H : TravHandler) (env : Env) (metadata fuel : Nat) :
    TravResult :=
  handleRefCountsLoop H env metadata (env.layoutOf metadata)
    (env.layoutBase metadata) fuel layoutStringHeaderSize 0

/-- DestroyHandler: recursive destroy witnesses for sub-metadata, the
classifier reading the value being destroyed, reference dispatch through
destroyTable. -/
def DestroyHandler (env : Env) (m : ByteMem) (addr : Nat) : TravHandler where
  onMetatype := fun type aoff => [.vwDestroy type (addr + aoff)]
  spesMem := m
  spesBase := addr
  onReference := fun tag aoff => destroyReference env m addr tag aoff

/-- swift_generic_destroy. -/
def swift_generic_destroy (env : Env) (address metadata : Nat) (m : ByteMem)
    (fuel : Nat) : TravResult :=
  handleRefCounts (DestroyHandler env m address) env metadata fuel

/-- CopyHandler: recursive copy-init witnesses for sub-metadata, the
classifier reading the source value, reference dispatch through
retainTable. -/
def CopyHandler (m : ByteMem) (dest src : Nat) : TravHandler where
  onMetatype := fun type aoff => [.vwInitWithCopy type (dest + aoff) (src + aoff)]
  spesMem := m
  spesBase := src
  onReference := fun tag aoff => copyReference m dest src tag aoff

/-- swift_generic_initWithCopy: memcpy the whole value, then traverse with
the copy handler over the copied state; returns the post-memcpy memory (the
only write the interpreter itself performs), the traversal trace, and dest. -/
def swift_generic_initWithCopy (env : Env) (dest src metadata : Nat)
    (m : ByteMem) (fuel : Nat) : Option (ByteMem × List Event × Nat) :=
  let size := env.vwSize metadata
  let m1 := memcpyMem m dest src size
  match handleRefCounts (CopyHandler m1 dest src) env metadata fuel with
  | .ok evs => some (m1, evs, dest)
  | .fatal => none
  | .outOfFuel => none

/-- Prepend the events of the current entry onto the eventual trace of the
rest of the loop, passing failures through. -/
def takePrepend (evs : List Event) : TravResult → TravResult
  | .ok rest => .ok (evs ++ rest)
  | .fatal => .fatal
  | .outOfFuel => .outOfFuel

/-- The conditional fixup of the take path: an initializeWithTake witness
call only when the resolved concrete type is not bitwise takable. -/
def takeInitEvents (env : Env) (type d s : Nat) : List Event :=
  if env.isBitwiseTakable type then [] else [.vwInitWithTake type d s]

/-- The open-coded loop of swift_generic_initWithTake: weak slots get an
explicit take-initialize; Metatype, Existential and Resilient sub-fields get
an initializeWithTake witness call only when the resolved concrete type is
not bitwise takable; the enum classifier reads the source value; every other
tag falls to the default case and causes no action. -/
def takeLoop (env : Env) (metadata : Nat) (typeLayout : List Nat)
    (base : Nat) (m : ByteMem) (dest src : Nat) : Nat → Nat → Nat → TravResult
  | 0, _, _ => .outOfFuel
  | fuel + 1, offset, addrOffset0 =>
    let word := readBytes typeLayout offset 8
    let offset := offset + 8
    let tag := word / 2 ^ 56
    let skip := word % 2 ^ 56
    let addrOffset := addrOffset0 + skip
    if tag = tagUnknownWeak then
      takePrepend
        [.call2 .swift_unknownObjectWeakTakeInit (dest + addrOffset) (src + addrOffset)]
        (takeLoop env metadata typeLayout base m dest src fuel offset addrOffset)
    else if tag = tagMetatype then
      let type := readBytes typeLayout offset 8
      takePrepend (takeInitEvents env type (dest + addrOffset) (src + addrOffset))
        (takeLoop env metadata typeLayout base m dest src fuel (offset + 8) addrOffset)
    else if tag = tagExistential then
      let type := getExistentialTypeMetadata m (src + addrOffset)
      takePrepend (takeInitEvents env type (dest + addrOffset) (src + addrOffset))
        (takeLoop env metadata typeLayout base m dest src fuel offset addrOffset)
    else if tag = tagResilient then
      let r := getResilientTypeMetadata env metadata base typeLayout offset
      takePrepend (takeInitEvents env r.1 (dest + addrOffset) (src + addrOffset))
        (takeLoop env metadata typeLayout base m dest src fuel r.2 addrOffset)
    else if tag = tagSinglePayloadEnumSimple then
      match handleSinglePayloadEnumSimple typeLayout offset m src addrOffset with
      | none => .fatal
      | some out =>
        takeLoop env metadata typeLayout base m dest src fuel out.offset out.addrOffset
    else if tag = tagEnd then .ok []
    else takeLoop env metadata typeLayout base m dest src fuel offset addrOffset

/-- swift_generic_initWithTake: memcpy the whole value; if the type is
bitwise takable the traversal is skipped entirely, otherwise run the
open-coded take loop. Returns the post-memcpy memory, the trace, and dest. -/
def swift_generic_initWithTake (env : Env) (dest src metadata : Nat)
    (m : ByteMem) (fuel : Nat) : Option (ByteMem × List Event × Nat) :=
  let typeLayout := env.layoutOf metadata
  let size := env.vwSize metadata
  let m1 := memcpyMem m dest src size
  if env.isBitwiseTakable metadata then some (m1, [], dest)
  else
    match takeLoop env metadata typeLayout (env.layoutBase metadata) m1 dest
        src fuel layoutStringHeaderSize 0 with
    | .ok evs => some (m1, evs, dest)
    | .fatal => none
    | .outOfFuel => none

/-- swift_generic_assignWithCopy: destroy the destination, then
copy-initialize it from the source; the combined trace is the destroy trace
followed by the copy trace. -/
def swift_generic_assignWithCopy (env : Env) (dest src metadata : Nat)
    (m : ByteMem) (fuel : Nat) : Option (ByteMem × List Event × Nat) :=
  match swift_generic_destroy env dest metadata m fuel with
  | .ok evs1 =>
    match swift_generic_initWithCopy env dest src metadata m fuel with
    | some (m2, evs2, r) => some (m2, evs1 ++ evs2, r)
    | none => none
  | _ => none

/-- swift_generic_assignWithTake: destroy the destination, then
take-initialize it from the source. -/
def swift_generic_assignWithTake (env : Env) (dest src metadata : Nat)
    (m : ByteMem) (fuel : Nat) : Option (ByteMem × List Event × Nat) :=
  match swift_generic_destroy env dest metadata m fuel with
  | .ok evs1 =>
    match swift_generic_initWithTake env dest src metadata m fuel with
    | some (m2, evs2, r) => some (m2, evs1 ++ evs2, r)
    | none => none
  | _ => none

/-- The loop of swift_resolve_resilientAccessors: walk the source layout
range entry by entry; on a Resilient entry, resolve the accessor and
overwrite the destination buffer in place with a Metatype word keeping the
original skip, followed by the resolved metadata pointer; Metatype entries
hop their inline pointer, enum entries hop their fixed-width parameter
block, all other tags only consume their entry word. -/
def resolveLoop (env : Env) (fieldType fieldBase : Nat)
    (fieldLayoutStr : List Nat) (layoutStrOffset endI : Nat) :
    Nat → Nat → List Nat → Option (List Nat)
  | 0, _, _ => none
  | fuel + 1, i, layoutStr =>
    if i < endI then
      let currentOffset := i
      let word := readBytes fieldLayoutStr i 8
      let i := i + 8
      let tag := word / 2 ^ 56
      let size := word % 2 ^ 56
      if tag = tagResilient then
        let r := getResilientTypeMetadata env fieldType fieldBase fieldLayoutStr i
        let writeOffset := layoutStrOffset + currentOffset - layoutStringHeaderSize
        let l1 := writeBytes layoutStr writeOffset 8 (2 ^ 56 * tagMetatype + size)
        let l2 := writeBytes l1 (writeOffset + 8) 8 r.1
        resolveLoop env fieldType fieldBase fieldLayoutStr layoutStrOffset endI fuel r.2 l2
      else if tag = tagMetatype then
        resolveLoop env fieldType fieldBase fieldLayoutStr layoutStrOffset endI fuel (i + 8) layoutStr
      else if tag = tagSinglePayloadEnumSimple then
        resolveLoop env fieldType fieldBase fieldLayoutStr layoutStrOffset endI fuel (i + 56) layoutStr
      else
        resolveLoop env fieldType fieldBase fieldLayoutStr layoutStrOffset endI fuel i layoutStr
    else some layoutStr

/-- swift_resolve_resilientAccessors: one-shot patch pass over refCountBytes
bytes of entries starting at the end of the header of the source layout
string, writing patches into the destination buffer at the corresponding
offsets relative to layoutStrOffset. -/
def swift_resolve_resilientAccessors (env : Env) (layoutStr : List Nat)
    (layoutStrOffset : Nat) (fieldLayoutStr : List Nat) (fieldBase : Nat)
    (refCountBytes fieldType fuel : Nat) : Option (List Nat) :=
  resolveLoop env fieldType fieldBase fieldLayoutStr layoutStrOffset
    (layoutStringHeaderSize + refCountBytes) fuel layoutStringHeaderSize layoutStr

lemma toLEBytes_length (w v : Nat) : (toLEBytes w v).length = w := by
  induction w generalizing v with
  | zero => rfl
  | succ w ih => simp [toLEBytes, ih]

lemma readBytes_cons_succ (x : Nat) (l : List Nat) (i w : Nat) :
    readBytes (x :: l) (i + 1) w = readBytes l i w := by
  induction w generalizing i with
  | zero => rfl
  | succ w ih =>
    simp only [readBytes, List.getD_cons_succ]
    rw [ih]

lemma readBytes_append (P l : List Nat) (i w : Nat) :
    readBytes (P ++ l) (P.length + i) w = readBytes l i w := by
  induction w generalizing i with
  | zero => rfl
  | succ w ih =>
    simp only [readBytes]
    rw [List.getD_append_right _ _ _ _ (Nat.le_add_right _ _),
      Nat.add_sub_cancel_left, show P.length + i + 1 = P.length + (i + 1) by omega,
      ih]

lemma readBytes_toLEBytes (w v : Nat) (rest : List Nat) :
    readBytes (toLEBytes w v ++ rest) 0 w = v % 256 ^ w := by
  induction w generalizing v with
  | zero => simp [readBytes, Nat.mod_one]
  | succ w ih =>
    simp only [toLEBytes, List.cons_append, readBytes, List.getD_cons_zero]
    rw [readBytes_cons_succ, ih, Nat.mod_mod_of_dvd v (dvd_refl 256),
      show (256 : Nat) ^ (w + 1) = 256 * 256 ^ w by ring, Nat.mod_mul]

lemma readBytes_lt (l : List Nat) (i w : Nat) : readBytes l i w < 256 ^ w := by
  induction w generalizing i with
  | zero => simp [readBytes]
  | succ w ih =>
    simp only [readBytes]
    have h1 : l.getD i 0 % 256 < 256 := Nat.mod_lt _ (by norm_num)
    have h2 := ih (i + 1)
    calc l.getD i 0 % 256 + 256 * readBytes l (i + 1) w
        < 256 + 256 * readBytes l (i + 1) w := by omega
      _ ≤ 256 + 256 * (256 ^ w - 1) := by
          have : readBytes l (i + 1) w ≤ 256 ^ w - 1 := by omega
          omega
      _ ≤ 256 ^ (w + 1) := by
          have : (0 : Nat) < 256 ^ w := Nat.pos_pow_of_pos _ (by norm_num)
          rw [pow_succ]
          omega

lemma entryWord_lt (skip tag : Nat) (hs : skip < 2 ^ 56) (ht : tag < 256) :
    skip + 2 ^ 56 * tag < 2 ^ 64 := by
  have : 2 ^ 56 * tag ≤ 2 ^ 56 * 255 := Nat.mul_le_mul_left _ (by omega)
  norm_num at this ⊢
  omega

lemma entryWord_div (skip tag : Nat) (hs : skip < 2 ^ 56) :
    (skip + 2 ^ 56 * tag) / 2 ^ 56 = tag := by
  rw [Nat.add_mul_div_left _ _ (by positivity), Nat.div_eq_of_lt hs, Nat.zero_add]

lemma entryWord_mod (skip tag : Nat) (hs : skip < 2 ^ 56) :
    (skip + 2 ^ 56 * tag) % 2 ^ 56 = skip := by
  rw [Nat.add_mul_mod_self_left, Nat.mod_eq_of_lt hs]

lemma set_append_length (P R : List Nat) (x y : Nat) :
    (P ++ x :: R).set P.length y = P ++ y :: R := by
  induction P with
  | nil => rfl
  | cons p P ih => simp [List.set, ih]

lemma writeBytes_append (w : Nat) : ∀ (P X Q : List Nat) (v : Nat),
    X.length = w →
    writeBytes (P ++ (X ++ Q)) P.length w v = P ++ (toLEBytes w v ++ Q) := by
  induction w with
  | zero =>
    intro P X Q v hX
    rw [List.length_eq_zero.mp hX]
    rfl
  | succ w ih =>
    intro P X Q v hX
    match X, hX with
    | x :: X, hX =>
      simp only [writeBytes, List.cons_append, toLEBytes]
      rw [show P ++ x :: (X ++ Q) = P ++ x :: (X ++ Q) from rfl,
        set_append_length]
      have : P ++ v % 256 :: (X ++ Q) = (P ++ [v % 256]) ++ (X ++ Q) := by
        simp
      rw [this, show P.length + 1 = (P ++ [v % 256]).length by simp,
        ih (P ++ [v % 256]) X Q (v / 256) (by simpa using hX)]
      simp

lemma spes_no_discriminator (typeLayout : List Nat) (offset0 : Nat)
    (m : ByteMem) (addr aoff : Nat)
    (h1 : readBytes typeLayout offset0 8 / 2 ^ 62 = 0)
    (h2 : readBytes typeLayout offset0 8 / 2 ^ 59 % 8 = 0) :
    handleSinglePayloadEnumSimple typeLayout offset0 m addr aoff
      = some (spesNoPayload typeLayout (offset0 + 32) aoff) := by
  unfold handleSinglePayloadEnumSimple
  simp only [h1, h2, ne_eq, not_true_eq_false, if_false, ite_false]
  norm_num

/-- C4: the claim says that a SinglePayloadEnumSimple entry with both
extraTagBytesPattern and xiTagBytesPattern zero classifies the value as
holding a payload. On the code it does not: with both patterns zero,
control in handleSinglePayloadEnumSimple falls through the noPayload label,
so the classifier reads the trailing refCountBytes/skip pair and skips the
payload sub-layout. On an all-zero parameter block the classifier returns
hasPayload = false. -/
theorem spes_both_patterns_zero_reports_no_payload :
    Option.map SPESOut.hasPayload
      (handleSinglePayloadEnumSimple (List.replicate 48 0) 0 (fun _ => 0) 0 0)
      = some false := by rfl

/-- C4 (amended): for a SinglePayloadEnumSimple entry whose
extraTagBytesPattern and xiTagBytesPattern are both zero, the classifier
reports no payload: control falls through the noPayload tail, advancing the
cursor past the payload sub-layout by the trailing refCountBytes value and
the address offset by the trailing skip value, and the traversal does not
recurse into the payload sub-layout. -/
theorem spes_no_discriminator_skips_payload (typeLayout : List Nat)
    (offset0 : Nat) (m : ByteMem) (addr aoff : Nat)
    (h1 : readBytes typeLayout offset0 8 / 2 ^ 62 = 0)
    (h2 : readBytes typeLayout offset0 8 / 2 ^ 59 % 8 = 0) :
    handleSinglePayloadEnumSimple typeLayout offset0 m addr aoff
      = some (spesNoPayload typeLayout (offset0 + 32) aoff) ∧
    Option.map SPESOut.hasPayload
      (handleSinglePayloadEnumSimple typeLayout offset0 m addr aoff)
      = some false := by
  refine ⟨spes_no_discriminator typeLayout offset0 m addr aoff h1 h2, ?_⟩
  rw [spes_no_discriminator typeLayout offset0 m addr aoff h1 h2]
  rfl

theorem spes_no_discriminator_skips_payload_witness :
    (readBytes (List.replicate 48 0) 0 8 / 2 ^ 62 = 0) ∧
    (readBytes (List.replicate 48 0) 0 8 / 2 ^ 59 % 8 = 0) ∧
    (handleSinglePayloadEnumSimple (List.replicate 48 0) 0 (fun _ => 0) 5 7
        = some (spesNoPayload (List.replicate 48 0) (0 + 32) 7) ∧
      Option.map SPESOut.hasPayload
        (handleSinglePayloadEnumSimple (List.replicate 48 0) 0 (fun _ => 0) 5 7)
        = some false) :=
  ⟨by decide, by decide,
    spes_no_discriminator_skips_payload (List.replicate 48 0) 0 (fun _ => 0) 5 7
      (by decide) (by decide)⟩

/-- C5: with extraTagBytesPattern = 1 (one extra tag byte) and a nonzero tag
byte right after the payload in each of two value buffers, the classifier
reports no payload in both runs, and its cursor and address-offset advances
are read from the layout string alone, so the two runs coincide exactly. -/
theorem spes_extra_tag_noise_insensitive (typeLayout : List Nat)
    (offset0 : Nat) (m1 m2 : ByteMem) (addr aoff : Nat)
    (hp : readBytes typeLayout offset0 8 / 2 ^ 62 = 1)
    (ht1 : m1 (addr + aoff + readBytes typeLayout (offset0 + 8) 8) % 256 ≠ 0)
    (ht2 : m2 (addr + aoff + readBytes typeLayout (offset0 + 8) 8) % 256 ≠ 0) :
    handleSinglePayloadEnumSimple typeLayout offset0 m1 addr aoff
      = handleSinglePayloadEnumSimple typeLayout offset0 m2 addr aoff ∧
    Option.map SPESOut.hasPayload
      (handleSinglePayloadEnumSimple typeLayout offset0 m1 addr aoff)
      = some false := by
  have key : ∀ m : ByteMem,
      m (addr + aoff + readBytes typeLayout (offset0 + 8) 8) % 256 ≠ 0 →
      handleSinglePayloadEnumSimple typeLayout offset0 m addr aoff
        = some (spesNoPayload typeLayout (offset0 + 32) aoff) := by
    intro m hm
    unfold handleSinglePayloadEnumSimple
    simp only [hp, readTagBytes, readMemLE]
    norm_num [hm]
  refine ⟨?_, ?_⟩
  · rw [key m1 ht1, key m2 ht2]
  · rw [key m1 ht1]
    rfl

theorem spes_extra_tag_noise_insensitive_witness :
    (readBytes (toLEBytes 8 (2 ^ 62) ++ List.replicate 40 0) 0 8 / 2 ^ 62 = 1) ∧
    ((fun _ => 1 : ByteMem)
        (0 + 0 + readBytes (toLEBytes 8 (2 ^ 62) ++ List.replicate 40 0) (0 + 8) 8) % 256 ≠ 0) ∧
    ((fun _ => 2 : ByteMem)
        (0 + 0 + readBytes (toLEBytes 8 (2 ^ 62) ++ List.replicate 40 0) (0 + 8) 8) % 256 ≠ 0) ∧
    (handleSinglePayloadEnumSimple (toLEBytes 8 (2 ^ 62) ++ List.replicate 40 0) 0
        (fun _ => 1) 0 0
      = handleSinglePayloadEnumSimple (toLEBytes 8 (2 ^ 62) ++ List.replicate 40 0) 0
        (fun _ => 2) 0 0 ∧
    Option.map SPESOut.hasPayload
      (handleSinglePayloadEnumSimple (toLEBytes 8 (2 ^ 62) ++ List.replicate 40 0) 0
        (fun _ => 1) 0 0) = some false) :=
  ⟨by decide, by decide, by decide,
    spes_extra_tag_noise_insensitive (toLEBytes 8 (2 ^ 62) ++ List.replicate 40 0) 0
      (fun _ => 1) (fun _ => 2) 0 0 (by decide) (by decide) (by decide)⟩

/-- Events a copy traversal may emit: retains, two-argument copy-init calls
and recursive copy-init witness entries. -/
def isCopyAction : Event → Bool
  | .call1 _ _ => true
  | .call2 _ _ _ => true
  | .vwInitWithCopy _ _ _ => true
  | .vwInitBufferWithCopyOfBuffer _ _ _ => true
  | _ => false

/-- Whether an event mutates the layout string. -/
def isLayoutWrite : Event → Bool
  | .layoutWrite _ _ => true
  | _ => false

/-- The native callables that touch a reference count: every function of the
release table and of the retain table. The weak take-initialize used by the
take path moves a weak reference without retaining or releasing. -/
def retainOrReleaseTouch : RuntimeFn → Bool
  | .swift_unknownObjectWeakTakeInit => false
  | _ => true

/-- Whether an event is a call of a retain or release callable. -/
def touchesRefCount : Event → Bool
  | .call1 f _ => retainOrReleaseTouch f
  | .call2 f _ _ => retainOrReleaseTouch f
  | _ => false


lemma retainTable_existential_not_single (t : Nat) :
    retainTable.get? t ≠ some (some RetainCallable.existentialCopy, true) := by
  intro h
  exact absurd (List.get?_mem h) (by decide)

lemma destroyReference_shapes (env : Env) (m : ByteMem) (addr t a : Nat)
    (evs : List Event) (h : destroyReference env m addr t a = some evs) :
    evs = [] ∨ (∃ f p, evs = [Event.call1 f p]) ∨
      (∃ ty ad, evs = [Event.vwDestroy ty ad]) := by
  rcases hg : destroyTable.get? t with _ | ⟨co, indirect⟩
  · simp only [destroyReference, hg] at h
    exact Option.noConfusion h
  · rcases co with _ | c
    · simp only [destroyReference, hg] at h
      exact Option.noConfusion h
    · rcases c with _ | f | _
      · simp only [destroyReference, hg, Option.some.injEq] at h
        subst h
        exact Or.inl rfl
      · simp only [destroyReference, hg, Option.some.injEq] at h
        subst h
        exact Or.inr (Or.inl ⟨_, _, rfl⟩)
      · simp only [destroyReference, hg, existential_destroy,
          Option.some.injEq] at h
        split at h <;> split at h <;> subst h <;>
          first
            | exact Or.inr (Or.inr ⟨_, _, rfl⟩)
            | exact Or.inr (Or.inl ⟨_, _, rfl⟩)

lemma copyReference_shapes (m : ByteMem) (dest src t a : Nat)
    (evs : List Event) (h : copyReference m dest src t a = some evs) :
    evs = [] ∨ (∃ f p, evs = [Event.call1 f p]) ∨
      (∃ f d s, evs = [Event.call2 f d s]) ∨
      (∃ ty d s, evs = [Event.vwInitBufferWithCopyOfBuffer ty d s]) := by
  rcases hg : retainTable.get? t with _ | ⟨co, isSingle⟩
  · simp only [copyReference, hg] at h
    exact Option.noConfusion h
  · rcases co with _ | c
    · simp only [copyReference, hg] at h
      exact Option.noConfusion h
    · rcases c with _ | f | _ <;> cases isSingle
      · simp only [copyReference, hg, Bool.false_eq_true, if_false,
          Option.some.injEq] at h
        subst h
        exact Or.inl rfl
      · simp only [copyReference, hg, if_true, Option.some.injEq] at h
        subst h
        exact Or.inl rfl
      · simp only [copyReference, hg, Bool.false_eq_true, if_false,
          Option.some.injEq] at h
        subst h
        exact Or.inr (Or.inr (Or.inl ⟨_, _, _, rfl⟩))
      · simp only [copyReference, hg, if_true, Option.some.injEq] at h
        subst h
        exact Or.inr (Or.inl ⟨_, _, rfl⟩)
      · simp only [copyReference, hg, Bool.false_eq_true, if_false,
          existential_initializeWithCopy, Option.some.injEq] at h
        subst h
        exact Or.inr (Or.inr (Or.inr ⟨_, _, _, rfl⟩))
      · exact absurd hg (retainTable_existential_not_single t)

lemma handleNextRefCount_stepped_events (p : Event → Prop) (H : TravHandler)
    (env : Env) (md : Nat) (L : List Nat) (base : Nat)
    (hM : ∀ t a, ∀ e ∈ H.onMetatype t a, p e)
    (hR : ∀ t a evs, H.onReference t a = some evs → ∀ e ∈ evs, p e)
    (offset aoff o a : Nat) (evs : List Event)
    (h : handleNextRefCount H env md L base offset aoff = .stepped o a evs) :
    ∀ e ∈ evs, p e := by
  unfold handleNextRefCount at h
  simp only [] at h
  split at h
  · exact StepRes.noConfusion h
  · split at h
    · injection h with h1 h2 h3
      subst h3
      exact hM _ _
    · split at h
      · injection h with h1 h2 h3
        subst h3
        exact hM _ _
      · split at h
        · split at h
          · exact StepRes.noConfusion h
          · injection h with h1 h2 h3
            subst h3
            intro e he
            exact absurd he (List.not_mem_nil e)
        · split at h
          · exact StepRes.noConfusion h
          · rename_i evs' heq
            injection h with h1 h2 h3
            subst h3
            exact hR _ _ _ heq

lemma handleRefCountsLoop_events (p : Event → Prop) (H : TravHandler)
    (env : Env) (md : Nat) (L : List Nat) (base : Nat)
    (hM : ∀ t a, ∀ e ∈ H.onMetatype t a, p e)
    (hR : ∀ t a evs, H.onReference t a = some evs → ∀ e ∈ evs, p e) :
    ∀ (fuel offset aoff : Nat) (evs : List Event),
      handleRefCountsLoop H env md L base fuel offset aoff = .ok evs →
      ∀ e ∈ evs, p e := by
  intro fuel
  induction fuel with
  | zero =>
    intro offset aoff evs h
    exact absurd h (by simp [handleRefCountsLoop])
  | succ fuel ih =>
    intro offset aoff evs h
    rw [handleRefCountsLoop] at h
    split at h
    · injection h with h1
      subst h1
      intro e he
      exact absurd he (List.not_mem_nil e)
    · exact TravResult.noConfusion h
    · rename_i o a evs' heq
      split at h
      · rename_i rest hrec
        injection h with h1
        subst h1
        intro e he
        rcases List.mem_append.mp he with h' | h'
        · exact handleNextRefCount_stepped_events p H env md L base hM hR
            _ _ _ _ _ heq e h'
        · exact ih _ _ _ hrec e h'
      · exact TravResult.noConfusion h
      · exact TravResult.noConfusion h

lemma takePrepend_ok (evs : List Event) (r : TravResult) (evs2 : List Event)
    (h : takePrepend evs r = .ok evs2) :
    ∃ rest, r = .ok rest ∧ evs2 = evs ++ rest := by
  cases r with
  | ok rest =>
    refine ⟨rest, rfl, ?_⟩
    unfold takePrepend at h
    exact (TravResult.ok.inj h).symm
  | fatal => exact TravResult.noConfusion h
  | outOfFuel => exact TravResult.noConfusion h

lemma mem_takeInitEvents (env : Env) (t d s : Nat) (e : Event)
    (he : e ∈ takeInitEvents env t d s) :
    env.isBitwiseTakable t = false ∧ e = .vwInitWithTake t d s := by
  unfold takeInitEvents at he
  split at he
  · exact absurd he (List.not_mem_nil e)
  · rename_i hbt
    exact ⟨by simpa using hbt, List.mem_singleton.mp he⟩

lemma takeLoop_events (p : Event → Prop) (env : Env) (md : Nat) (L : List Nat)
    (base : Nat) (m : ByteMem) (dest src : Nat)
    (hweak : ∀ d s, p (.call2 .swift_unknownObjectWeakTakeInit d s))
    (htake : ∀ t d s, env.isBitwiseTakable t = false → p (.vwInitWithTake t d s)) :
    ∀ (fuel offset aoff : Nat) (evs : List Event),
      takeLoop env md L base m dest src fuel offset aoff = .ok evs →
      ∀ e ∈ evs, p e := by
  intro fuel
  induction fuel with
  | zero =>
    intro offset aoff evs h
    exact absurd h (by simp [takeLoop])
  | succ fuel ih =>
    intro offset aoff evs h
    rw [takeLoop] at h
    simp only [] at h
    split at h
    · obtain ⟨rest, hrec, hevs⟩ := takePrepend_ok _ _ _ h
      subst hevs
      intro e he
      rcases List.mem_append.mp he with h' | h'
      · rw [List.mem_singleton.mp h']
        exact hweak _ _
      · exact ih _ _ _ hrec e h'
    · split at h
      · obtain ⟨rest, hrec, hevs⟩ := takePrepend_ok _ _ _ h
        subst hevs
        intro e he
        rcases List.mem_append.mp he with h' | h'
        · obtain ⟨hbt, he'⟩ := mem_takeInitEvents _ _ _ _ _ h'
          rw [he']
          exact htake _ _ _ hbt
        · exact ih _ _ _ hrec e h'
      · split at h
        · obtain ⟨rest, hrec, hevs⟩ := takePrepend_ok _ _ _ h
          subst hevs
          intro e he
          rcases List.mem_append.mp he with h' | h'
          · obtain ⟨hbt, he'⟩ := mem_takeInitEvents _ _ _ _ _ h'
            rw [he']
            exact htake _ _ _ hbt
          · exact ih _ _ _ hrec e h'
        · split at h
          · obtain ⟨rest, hrec, hevs⟩ := takePrepend_ok _ _ _ h
            subst hevs
            intro e he
            rcases List.mem_append.mp he with h' | h'
            · obtain ⟨hbt, he'⟩ := mem_takeInitEvents _ _ _ _ _ h'
              rw [he']
              exact htake _ _ _ hbt
            · exact ih _ _ _ hrec e h'
          · split at h
            · split at h
              · exact TravResult.noConfusion h
              · exact ih _ _ _ h
            · split at h
              · injection h with h1
                subst h1
                intro e he
                exact absurd he (List.not_mem_nil e)
              · exact ih _ _ _ h

/-- C1: swift_generic_initWithCopy first bitwise-copies exactly
vwSize(metadata) bytes from src to dest: the memory it returns is exactly
the memcpy of the input memory, so the interpreter itself writes no other
byte, and everything outside the fields acted on stays as the bulk copy
produced it. Every traversal event is a retain or copy-initialization of a
field an entry names (a single-argument retain of a loaded field pointer, a
two-argument copy-init of a field address pair, or a recursive copy-init
witness on a sub-field), and the returned pointer is the given dest. -/
theorem initWithCopy_memcpy_then_field_copies (env : Env)
    (dest src metadata : Nat) (m : ByteMem) (fuel : Nat)
    (m2 : ByteMem) (evs : List Event) (r : Nat)
    (h : swift_generic_initWithCopy env dest src metadata m fuel
          = some (m2, evs, r)) :
    r = dest ∧ m2 = memcpyMem m dest src (env.vwSize metadata) ∧
      ∀ e ∈ evs, isCopyAction e = true := by
  unfold swift_generic_initWithCopy at h
  simp only [] at h
  split at h
  · rename_i evs' heq
    simp only [Option.some.injEq, Prod.mk.injEq] at h
    obtain ⟨hm, he, hr⟩ := h
    refine ⟨hr.symm, hm.symm, ?_⟩
    rw [← he]
    unfold handleRefCounts at heq
    refine handleRefCountsLoop_events (fun e => isCopyAction e = true) _ env
      metadata _ _ ?_ ?_ fuel _ _ _ heq
    · intro t a e he'
      rw [List.mem_singleton.mp he']
      rfl
    · intro t a evs0 h0 e he'
      rcases copyReference_shapes _ _ _ _ _ _ h0 with h1 | ⟨f, p, h1⟩ |
        ⟨f, d, s, h1⟩ | ⟨ty, d, s, h1⟩ <;> subst h1
      · exact absurd he' (List.not_mem_nil e)
      · rw [List.mem_singleton.mp he']
        rfl
      · rw [List.mem_singleton.mp he']
        rfl
      · rw [List.mem_singleton.mp he']
        rfl
  · exact Option.noConfusion h
  · exact Option.noConfusion h

/-- A tiny concrete environment for witnesses: every metadata describes a
16-byte value, not bitwise takable, whose layout string is a 16-byte header
followed by a single End entry. -/
def env0 : Env where
  vwSize := fun _ => 16
  isBitwiseTakable := fun _ => false
  isValueInline := fun _ => true
  layoutOf := fun _ => List.replicate 16 0 ++ toLEBytes 8 0
  layoutBase := fun _ => 0
  resolveAccessor := fun _ _ => 0

theorem initWithCopy_memcpy_then_field_copies_witness :
    swift_generic_initWithCopy env0 100 200 0 (fun _ => 0) 1
      = some (memcpyMem (fun _ => 0) 100 200 16, [], 100) ∧
    (100 = 100 ∧
      memcpyMem (fun _ => 0) 100 200 16
        = memcpyMem (fun _ => 0) 100 200 (env0.vwSize 0) ∧
      ∀ e ∈ ([] : List Event), isCopyAction e = true) :=
  ⟨rfl, initWithCopy_memcpy_then_field_copies env0 100 200 0 (fun _ => 0) 1
      (memcpyMem (fun _ => 0) 100 200 16) [] 100 rfl⟩

/-- C2: swift_generic_initWithTake first bitwise-copies the whole value (the
returned memory is exactly the memcpy of the input memory) and returns the
given dest. If the metadata reports bitwise-takable the traversal is skipped
entirely and the trace is empty. Otherwise every traversal event is either
an explicit take-initialize of a weak slot, or an initializeWithTake witness
call on a sub-field whose resolved concrete type reports non-bitwise-takable;
every other entry kind contributes no event. -/
theorem initWithTake_memcpy_then_conditional_fixups (env : Env)
    (dest src metadata : Nat) (m : ByteMem) (fuel : Nat)
    (m2 : ByteMem) (evs : List Event) (r : Nat)
    (h : swift_generic_initWithTake env dest src metadata m fuel
          = some (m2, evs, r)) :
    r = dest ∧ m2 = memcpyMem m dest src (env.vwSize metadata) ∧
    (env.isBitwiseTakable metadata = true → evs = []) ∧
    ∀ e ∈ evs,
      (∃ d s, e = Event.call2 .swift_unknownObjectWeakTakeInit d s) ∨
      (∃ t d s, e = Event.vwInitWithTake t d s ∧
        env.isBitwiseTakable t = false) := by
  unfold swift_generic_initWithTake at h
  simp only [] at h
  split at h
  · simp only [Option.some.injEq, Prod.mk.injEq] at h
    obtain ⟨hm, he, hr⟩ := h
    refine ⟨hr.symm, hm.symm, fun _ => he.symm, ?_⟩
    rw [← he]
    intro e he'
    exact absurd he' (List.not_mem_nil e)
  · rename_i hbt
    split at h
    · rename_i evs' heq
      simp only [Option.some.injEq, Prod.mk.injEq] at h
      obtain ⟨hm, he, hr⟩ := h
      refine ⟨hr.symm, hm.symm, fun hb => absurd hb hbt, ?_⟩
      rw [← he]
      exact takeLoop_events _ env metadata _ _ _ dest src
        (fun d s => Or.inl ⟨d, s, rfl⟩)
        (fun t d s hb => Or.inr ⟨t, d, s, rfl, hb⟩) fuel _ _ _ heq
    · exact Option.noConfusion h
    · exact Option.noConfusion h

theorem initWithTake_memcpy_then_conditional_fixups_witness :
    swift_generic_initWithTake env0 100 200 0 (fun _ => 0) 1
      = some (memcpyMem (fun _ => 0) 100 200 16, [], 100) ∧
    (100 = 100 ∧
      memcpyMem (fun _ => 0) 100 200 16
        = memcpyMem (fun _ => 0) 100 200 (env0.vwSize 0) ∧
      (env0.isBitwiseTakable 0 = true → ([] : List Event) = []) ∧
      ∀ e ∈ ([] : List Event),
        (∃ d s, e = Event.call2 .swift_unknownObjectWeakTakeInit d s) ∨
        (∃ t d s, e = Event.vwInitWithTake t d s ∧
          env0.isBitwiseTakable t = false)) :=
  ⟨rfl, initWithTake_memcpy_then_conditional_fixups env0 100 200 0
      (fun _ => 0) 1 (memcpyMem (fun _ => 0) 100 200 16) [] 100 rfl⟩

/-- C3: the take-init traversal never invokes a retain or release callable:
no event of its trace is a call of any function of the release or retain
dispatch tables, so no reference count changes relative to before the call.
The only opaque callable the take path ever names is the weak
take-initialize, which moves a weak reference without touching counts. -/
theorem initWithTake_no_refcount_calls (env : Env)
    (dest src metadata : Nat) (m : ByteMem) (fuel : Nat)
    (m2 : ByteMem) (evs : List Event) (r : Nat)
    (h : swift_generic_initWithTake env dest src metadata m fuel
          = some (m2, evs, r)) :
    ∀ e ∈ evs, touchesRefCount e = false := by
  unfold swift_generic_initWithTake at h
  simp only [] at h
  split at h
  · simp only [Option.some.injEq, Prod.mk.injEq] at h
    rw [← h.2.1]
    intro e he'
    exact absurd he' (List.not_mem_nil e)
  · split at h
    · rename_i evs' heq
      simp only [Option.some.injEq, Prod.mk.injEq] at h
      rw [← h.2.1]
      exact takeLoop_events (fun e => touchesRefCount e = false) env metadata
        _ _ _ dest src (fun d s => rfl) (fun t d s hb => rfl) fuel _ _ _ heq
    · exact Option.noConfusion h
    · exact Option.noConfusion h

theorem initWithTake_no_refcount_calls_witness :
    swift_generic_initWithTake env0 100 200 0 (fun _ => 0) 1
      = some (memcpyMem (fun _ => 0) 100 200 16, [], 100) ∧
    ∀ e ∈ ([] : List Event), touchesRefCount e = false :=
  ⟨rfl, initWithTake_no_refcount_calls env0 100 200 0 (fun _ => 0) 1
      (memcpyMem (fun _ => 0) 100 200 16) [] 100 rfl⟩

/-- C10: completed traversals of destroy, copy-init and take-init emit no
layout-string mutation: no event of any of their traces is a layoutWrite,
mirroring that the traversal paths of the source only ever call readBytes on
the layout string (writeBytes appears only in the resilient patch pass). -/
theorem traversals_never_write_layout (env : Env)
    (addr dest src metadata : Nat) (m : ByteMem) (fuel : Nat)
    (evsD : List Event) (m2 : ByteMem) (evsC : List Event) (r : Nat)
    (m3 : ByteMem) (evsT : List Event) (r2 : Nat)
    (hd : swift_generic_destroy env addr metadata m fuel = .ok evsD)
    (hc : swift_generic_initWithCopy env dest src metadata m fuel
            = some (m2, evsC, r))
    (ht : swift_generic_initWithTake env dest src metadata m fuel
            = some (m3, evsT, r2)) :
    (∀ e ∈ evsD, isLayoutWrite e = false) ∧
    (∀ e ∈ evsC, isLayoutWrite e = false) ∧
    (∀ e ∈ evsT, isLayoutWrite e = false) := by
  refine ⟨?_, ?_, ?_⟩
  · unfold swift_generic_destroy handleRefCounts at hd
    refine handleRefCountsLoop_events (fun e => isLayoutWrite e = false) _ env
      metadata _ _ ?_ ?_ fuel _ _ _ hd
    · intro t a e he'
      rw [List.mem_singleton.mp he']
      rfl
    · intro t a evs0 h0 e he'
      rcases destroyReference_shapes _ _ _ _ _ _ h0 with h1 | ⟨f, p, h1⟩ |
        ⟨ty, ad, h1⟩ <;> subst h1
      · exact absurd he' (List.not_mem_nil e)
      · rw [List.mem_singleton.mp he']
        rfl
      · rw [List.mem_singleton.mp he']
        rfl
  · unfold swift_generic_initWithCopy at hc
    simp only [] at hc
    split at hc
    · rename_i evs' heq
      simp only [Option.some.injEq, Prod.mk.injEq] at hc
      rw [← hc.2.1]
      unfold handleRefCounts at heq
      refine handleRefCountsLoop_events (fun e => isLayoutWrite e = false) _ env
        metadata _ _ ?_ ?_ fuel _ _ _ heq
      · intro t a e he'
        rw [List.mem_singleton.mp he']
        rfl
      · intro t a evs0 h0 e he'
        rcases copyReference_shapes _ _ _ _ _ _ h0 with h1 | ⟨f, p, h1⟩ |
          ⟨f, d, s, h1⟩ | ⟨ty, d, s, h1⟩ <;> subst h1
        · exact absurd he' (List.not_mem_nil e)
        · rw [List.mem_singleton.mp he']
          rfl
        · rw [List.mem_singleton.mp he']
          rfl
        · rw [List.mem_singleton.mp he']
          rfl
    · exact Option.noConfusion hc
    · exact Option.noConfusion hc
  · unfold swift_generic_initWithTake at ht
    simp only [] at ht
    split at ht
    · simp only [Option.some.injEq, Prod.mk.injEq] at ht
      rw [← ht.2.1]
      intro e he'
      exact absurd he' (List.not_mem_nil e)
    · split at ht
      · rename_i evs' heq
        simp only [Option.some.injEq, Prod.mk.injEq] at ht
        rw [← ht.2.1]
        exact takeLoop_events (fun e => isLayoutWrite e = false) env metadata
          _ _ _ dest src (fun d s => rfl) (fun t d s hb => rfl) fuel _ _ _ heq
      · exact Option.noConfusion ht
      · exact Option.noConfusion ht

theorem traversals_never_write_layout_witness :
    swift_generic_destroy env0 100 0 (fun _ => 0) 1 = .ok [] ∧
    swift_generic_initWithCopy env0 100 200 0 (fun _ => 0) 1
      = some (memcpyMem (fun _ => 0) 100 200 16, [], 100) ∧
    swift_generic_initWithTake env0 100 200 0 (fun _ => 0) 1
      = some (memcpyMem (fun _ => 0) 100 200 16, [], 100) ∧
    ((∀ e ∈ ([] : List Event), isLayoutWrite e = false) ∧
     (∀ e ∈ ([] : List Event), isLayoutWrite e = false) ∧
     (∀ e ∈ ([] : List Event), isLayoutWrite e = false)) :=
  ⟨rfl, rfl, rfl,
    traversals_never_write_layout env0 100 100 200 0 (fun _ => 0) 1 []
      (memcpyMem (fun _ => 0) 100 200 16) [] 100
      (memcpyMem (fun _ => 0) 100 200 16) [] 100 rfl rfl rfl⟩

lemma initWithCopy_ret (env : Env) (dest src metadata : Nat) (m : ByteMem)
    (fuel : Nat) (m2 : ByteMem) (evs : List Event) (r : Nat)
    (h : swift_generic_initWithCopy env dest src metadata m fuel
          = some (m2, evs, r)) : r = dest := by
  unfold swift_generic_initWithCopy at h
  simp only [] at h
  split at h
  · simp only [Option.some.injEq, Prod.mk.injEq] at h
    exact h.2.2.symm
  · exact Option.noConfusion h
  · exact Option.noConfusion h

lemma initWithTake_ret (env : Env) (dest src metadata : Nat) (m : ByteMem)
    (fuel : Nat) (m2 : ByteMem) (evs : List Event) (r : Nat)
    (h : swift_generic_initWithTake env dest src metadata m fuel
          = some (m2, evs, r)) : r = dest := by
  unfold swift_generic_initWithTake at h
  simp only [] at h
  split at h
  · simp only [Option.some.injEq, Prod.mk.injEq] at h
    exact h.2.2.symm
  · split at h
    · simp only [Option.some.injEq, Prod.mk.injEq] at h
      exact h.2.2.symm
    · exact Option.noConfusion h
    · exact Option.noConfusion h

/-- The composition the spec describes for Copy-Assign: Destroy(dest)
followed by Copy-Init(dest, src), the combined trace being the destroy
trace followed by the copy trace. Stated from the spec's words, to be
compared with swift_generic_assignWithCopy. -/
def specDestroyThenCopyInit (env : Env) (dest src metadata : Nat)
    (m : ByteMem) (fuel : Nat) : Option (ByteMem × List Event × Nat) :=
  match swift_generic_destroy env dest metadata m fuel with
  | .ok evs1 =>
    match swift_generic_initWithCopy env dest src metadata m fuel with
    | some (m2, evs2, r) => some (m2, evs1 ++ evs2, r)
    | none => none
  | _ => none

/-- The composition the spec describes for Take-Assign: Destroy(dest)
followed by Take-Init(dest, src). Stated from the spec's words, to be
compared with swift_generic_assignWithTake. -/
def specDestroyThenTakeInit (env : Env) (dest src metadata : Nat)
    (m : ByteMem) (fuel : Nat) : Option (ByteMem × List Event × Nat) :=
  match swift_generic_destroy env dest metadata m fuel with
  | .ok evs1 =>
    match swift_generic_initWithTake env dest src metadata m fuel with
    | some (m2, evs2, r) => some (m2, evs1 ++ evs2, r)
    | none => none
  | _ => none

/-- C7: swift_generic_assignWithCopy is observationally the destroy of the
destination followed by the copy-initialization from the source, and
swift_generic_assignWithTake is the destroy followed by the
take-initialization; each returns the dest pointer it was given whenever it
completes. -/
theorem assign_is_destroy_then_init (env : Env) (dest src metadata : Nat)
    (m : ByteMem) (fuel : Nat) (m2 : ByteMem) (evs : List Event) (r : Nat)
    (m3 : ByteMem) (evs2 : List Event) (r2 : Nat)
    (hc : swift_generic_assignWithCopy env dest src metadata m fuel
            = some (m2, evs, r))
    (ht : swift_generic_assignWithTake env dest src metadata m fuel
            = some (m3, evs2, r2)) :
    swift_generic_assignWithCopy env dest src metadata m fuel
      = specDestroyThenCopyInit env dest src metadata m fuel ∧
    swift_generic_assignWithTake env dest src metadata m fuel
      = specDestroyThenTakeInit env dest src metadata m fuel ∧
    r = dest ∧ r2 = dest := by
  refine ⟨rfl, rfl, ?_, ?_⟩
  · unfold swift_generic_assignWithCopy at hc
    split at hc
    · split at hc
      · rename_i mc evsc rc heqc
        simp only [Option.some.injEq, Prod.mk.injEq] at hc
        rw [← hc.2.2]
        exact initWithCopy_ret env dest src metadata m fuel mc evsc rc heqc
      · exact Option.noConfusion hc
    · exact Option.noConfusion hc
  · unfold swift_generic_assignWithTake at ht
    split at ht
    · split at ht
      · rename_i mt evst rt heqt
        simp only [Option.some.injEq, Prod.mk.injEq] at ht
        rw [← ht.2.2]
        exact initWithTake_ret env dest src metadata m fuel mt evst rt heqt
      · exact Option.noConfusion ht
    · exact Option.noConfusion ht

theorem assign_is_destroy_then_init_witness :
    swift_generic_assignWithCopy env0 100 200 0 (fun _ => 0) 1
      = some (memcpyMem (fun _ => 0) 100 200 16, [], 100) ∧
    swift_generic_assignWithTake env0 100 200 0 (fun _ => 0) 1
      = some (memcpyMem (fun _ => 0) 100 200 16, [], 100) ∧
    (swift_generic_assignWithCopy env0 100 200 0 (fun _ => 0) 1
        = specDestroyThenCopyInit env0 100 200 0 (fun _ => 0) 1 ∧
      swift_generic_assignWithTake env0 100 200 0 (fun _ => 0) 1
        = specDestroyThenTakeInit env0 100 200 0 (fun _ => 0) 1 ∧
      100 = 100 ∧ 100 = 100) :=
  ⟨rfl, rfl,
    assign_is_destroy_then_init env0 100 200 0 (fun _ => 0) 1
      (memcpyMem (fun _ => 0) 100 200 16) [] 100
      (memcpyMem (fun _ => 0) 100 200 16) [] 100 rfl rfl⟩

lemma destroyReference_custom_null (env : Env) (m : ByteMem) (addr a : Nat) :
    destroyReference env m addr 11 a = none := rfl

lemma destroyReference_unused_null (env : Env) (m : ByteMem) (addr a : Nat) :
    destroyReference env m addr 13 a = none := rfl

lemma copyReference_custom_null (m : ByteMem) (dest src a : Nat) :
    copyReference m dest src 11 a = none := rfl

lemma copyReference_unused_null (m : ByteMem) (dest src a : Nat) :
    copyReference m dest src 13 a = none := rfl

lemma handleNextRefCount_null_reference (H : TravHandler) (env : Env)
    (md : Nat) (L : List Nat) (base offset aoff t : Nat)
    (htag : readBytes L offset 8 / 2 ^ 56 = t)
    (hnull : H.onReference t (aoff + readBytes L offset 8 % 2 ^ 56) = none)
    (h0 : ¬t = tagEnd) (h12 : ¬t = tagMetatype) (h15 : ¬t = tagResilient)
    (h16 : ¬t = tagSinglePayloadEnumSimple) :
    handleNextRefCount H env md L base offset aoff = .fatalStep := by
  unfold handleNextRefCount
  simp only [htag, h0, h12, h15, h16, if_false, ite_false]
  rw [hnull]

lemma handleRefCountsLoop_fatal_of_null (H : TravHandler) (env : Env)
    (md : Nat) (L : List Nat) (base offset aoff t fuel : Nat)
    (htag : readBytes L offset 8 / 2 ^ 56 = t)
    (hnull : H.onReference t (aoff + readBytes L offset 8 % 2 ^ 56) = none)
    (h0 : ¬t = tagEnd) (h12 : ¬t = tagMetatype) (h15 : ¬t = tagResilient)
    (h16 : ¬t = tagSinglePayloadEnumSimple) :
    handleRefCountsLoop H env md L base (fuel + 1) offset aoff = .fatal := by
  rw [handleRefCountsLoop,
    handleNextRefCount_null_reference H env md L base offset aoff t htag
      hnull h0 h12 h15 h16]

/-- C9 (amended): an entry whose tag is one of the reserved ownership kinds
(Custom = 11 or the unused kind 13) maps to a null callable in both
dispatch tables, so dispatching it in a destroy or copy-init traversal is
fatal. The take-init traversal, however, consults no dispatch table: its
default case takes no action on such an entry and the loop continues past
it normally. -/
theorem reserved_kind_dispatch (env : Env) (md : Nat) (L : List Nat)
    (base : Nat) (m : ByteMem) (addr dest src offset aoff fuel : Nat)
    (htag : readBytes L offset 8 / 2 ^ 56 = 11 ∨
            readBytes L offset 8 / 2 ^ 56 = 13) :
    handleRefCountsLoop (DestroyHandler env m addr) env md L base (fuel + 1)
        offset aoff = .fatal ∧
    handleRefCountsLoop (CopyHandler m dest src) env md L base (fuel + 1)
        offset aoff = .fatal ∧
    takeLoop env md L base m dest src (fuel + 1) offset aoff
      = takeLoop env md L base m dest src fuel (offset + 8)
          (aoff + readBytes L offset 8 % 2 ^ 56) := by
  refine ⟨?_, ?_, ?_⟩
  · rcases htag with h | h
    · exact handleRefCountsLoop_fatal_of_null _ env md L base offset aoff 11
        fuel h (destroyReference_custom_null env m addr (aoff + readBytes L offset 8 % 2 ^ 56)) (by decide)
        (by decide) (by decide) (by decide)
    · exact handleRefCountsLoop_fatal_of_null _ env md L base offset aoff 13
        fuel h (destroyReference_unused_null env m addr (aoff + readBytes L offset 8 % 2 ^ 56)) (by decide)
        (by decide) (by decide) (by decide)
  · rcases htag with h | h
    · exact handleRefCountsLoop_fatal_of_null _ env md L base offset aoff 11
        fuel h (copyReference_custom_null m dest src (aoff + readBytes L offset 8 % 2 ^ 56)) (by decide)
        (by decide) (by decide) (by decide)
    · exact handleRefCountsLoop_fatal_of_null _ env md L base offset aoff 13
        fuel h (copyReference_unused_null m dest src (aoff + readBytes L offset 8 % 2 ^ 56)) (by decide)
        (by decide) (by decide) (by decide)
  · rcases htag with h | h <;>
      (rw [takeLoop]
       simp only [h, tagUnknownWeak, tagMetatype, tagExistential,
         tagResilient, tagSinglePayloadEnumSimple, tagEnd]
       norm_num)

theorem reserved_kind_dispatch_witness :
    (readBytes (toLEBytes 8 (2 ^ 56 * 11)) 0 8 / 2 ^ 56 = 11 ∨
     readBytes (toLEBytes 8 (2 ^ 56 * 11)) 0 8 / 2 ^ 56 = 13) ∧
    (handleRefCountsLoop (DestroyHandler env0 (fun _ => 0) 1) env0 0
        (toLEBytes 8 (2 ^ 56 * 11)) 0 (0 + 1) 0 0 = .fatal ∧
     handleRefCountsLoop (CopyHandler (fun _ => 0) 2 3) env0 0
        (toLEBytes 8 (2 ^ 56 * 11)) 0 (0 + 1) 0 0 = .fatal ∧
     takeLoop env0 0 (toLEBytes 8 (2 ^ 56 * 11)) 0 (fun _ => 0) 2 3 (0 + 1) 0 0
       = takeLoop env0 0 (toLEBytes 8 (2 ^ 56 * 11)) 0 (fun _ => 0) 2 3 0
           (0 + 8) (0 + readBytes (toLEBytes 8 (2 ^ 56 * 11)) 0 8 % 2 ^ 56)) :=
  ⟨by decide,
    reserved_kind_dispatch env0 0 (toLEBytes 8 (2 ^ 56 * 11)) 0 (fun _ => 0)
      1 2 3 0 0 0 (by decide)⟩

/-- A concrete environment whose layout string holds one reserved Custom
entry followed by End, exercising the reserved-kind paths. -/
def envC9 : Env where
  vwSize := fun _ => 8
  isBitwiseTakable := fun _ => false
  isValueInline := fun _ => true
  layoutOf := fun _ =>
    List.replicate 16 0 ++ (toLEBytes 8 (2 ^ 56 * 11) ++ toLEBytes 8 0)
  layoutBase := fun _ => 0
  resolveAccessor := fun _ _ => 0

/-- C9: the claim says every traversal, take-init included, terminates
fatally on an entry of a reserved ownership kind because of the null
callable in the dispatch tables. The take-init traversal does not: on a
layout whose first entry is the reserved Custom kind (tag 11) it ignores
the entry (its switch has no table dispatch and the default case does
nothing) and completes normally, returning dest with an empty trace. -/
theorem takeInit_completes_on_reserved_kind :
    Option.map (fun r => (r.2.1, r.2.2))
      (swift_generic_initWithTake envC9 100 200 0 (fun _ => 0) 2)
      = some ([], 100) := by rfl

/-- The 8-byte entry word of a layout string: 56-bit skip, 8-bit tag. -/
def entryWord (skip tag : Nat) : List Nat := toLEBytes 8 (skip + 2 ^ 56 * tag)

/-- The release callable of the destroy table for each concrete managed
ownership kind (tags 1 through 10). -/
def relFn : Nat → RuntimeFn
  | 1 => .swift_errorRelease
  | 2 => .swift_release
  | 3 => .swift_unownedRelease
  | 4 => .swift_weakDestroy
  | 5 => .swift_unknownObjectRelease
  | 6 => .swift_unknownObjectUnownedDestroy
  | 7 => .swift_unknownObjectWeakDestroy
  | 8 => .swift_bridgeObjectRelease
  | 9 => .Block_release
  | _ => .swift_unknownObjectRelease

/-- The isIndirect flag of the destroy table for the managed kinds. -/
def relIndirect : Nat → Bool
  | 4 => false
  | 6 => false
  | 7 => false
  | _ => true

/-- The single release call the destroy traversal performs for a managed
field of kind tag at cumulative offset aoff of the value at addr. -/
def releaseEvent (m : ByteMem) (addr tag aoff : Nat) : Event :=
  .call1 (relFn tag)
    (if relIndirect tag then readMemLE m (addr + aoff) 8 else addr + aoff)

/-- The expected destroy trace of a list of managed fields given as
(skip, tag) pairs: exactly one release per field, in entry order, at the
accumulating byte offsets. -/
def destroySpecEvents (m : ByteMem) (addr : Nat) :
    List (Nat × Nat) → Nat → List Event
  | [], _ => []
  | f :: fs, acc =>
    releaseEvent m addr f.2 (acc + f.1) ::
      destroySpecEvents m addr fs (acc + f.1)

/-- The cumulative byte offsets of a list of (skip, tag) fields. -/
def cumOffsets : List (Nat × Nat) → Nat → List Nat
  | [], _ => []
  | f :: fs, acc => (acc + f.1) :: cumOffsets fs (acc + f.1)

lemma readBytes_at_append (P l : List Nat) (w : Nat) :
    readBytes (P ++ l) P.length w = readBytes l 0 w := by
  have := readBytes_append P l 0 w
  simpa using this

lemma readBytes_entryWord (skip tag : Nat) (rest : List Nat)
    (hs : skip < 2 ^ 56) (ht : tag < 256) :
    readBytes (entryWord skip tag ++ rest) 0 8 = skip + 2 ^ 56 * tag := by
  rw [entryWord, readBytes_toLEBytes]
  rw [show (256 : Nat) ^ 8 = 2 ^ 64 by norm_num]
  exact Nat.mod_eq_of_lt (entryWord_lt skip tag hs ht)

lemma entryWord_length (skip tag : Nat) : (entryWord skip tag).length = 8 :=
  toLEBytes_length 8 _

lemma destroyReference_managed (env : Env) (m : ByteMem) (addr aoff t : Nat)
    (h1 : 1 ≤ t) (h2 : t ≤ 10) :
    destroyReference env m addr t aoff
      = some [releaseEvent m addr t aoff] := by
  interval_cases t <;> rfl

lemma handleRefCountsLoop_step (H : TravHandler) (env : Env) (md : Nat)
    (L : List Nat) (base fuel offset aoff o a : Nat) (evs : List Event)
    (hstep : handleNextRefCount H env md L base offset aoff
      = .stepped o a evs) :
    handleRefCountsLoop H env md L base (fuel + 1) offset aoff
      = takePrepend evs (handleRefCountsLoop H env md L base fuel o a) := by
  rw [handleRefCountsLoop, hstep]
  show (match handleRefCountsLoop H env md L base fuel o a with
    | TravResult.ok rest => TravResult.ok (evs ++ rest)
    | TravResult.fatal => TravResult.fatal
    | TravResult.outOfFuel => TravResult.outOfFuel)
    = takePrepend evs (handleRefCountsLoop H env md L base fuel o a)
  cases handleRefCountsLoop H env md L base fuel o a <;> rfl

lemma destroyLoop_fields (env : Env) (m : ByteMem) (addr md base : Nat) :
    ∀ (fields : List (Nat × Nat)) (P rest : List Nat) (aoff : Nat),
      (∀ f ∈ fields, 1 ≤ f.2 ∧ f.2 ≤ 10 ∧ f.1 < 2 ^ 56) →
      handleRefCountsLoop (DestroyHandler env m addr) env md
          (P ++ ((fields.map fun f => entryWord f.1 f.2).join ++
            (entryWord 0 tagEnd ++ rest)))
          base (fields.length + 1) P.length aoff
        = .ok (destroySpecEvents m addr fields aoff) := by
  intro fields
  induction fields with
  | nil =>
    intro P rest aoff hwf
    rw [handleRefCountsLoop]
    have hword : readBytes
        (P ++ ((List.map (fun f => entryWord f.1 f.2)
            ([] : List (Nat × Nat))).join ++
          (entryWord 0 tagEnd ++ rest))) P.length 8 = 0 + 2 ^ 56 * 0 := by
      simp only [List.map_nil, List.join_nil, List.nil_append]
      rw [readBytes_at_append]
      exact readBytes_entryWord 0 tagEnd rest (by norm_num) (by norm_num [tagEnd])
    unfold handleNextRefCount
    simp only [hword]
    norm_num [tagEnd, destroySpecEvents]
  | cons f fs ih =>
    intro P rest aoff hwf
    obtain ⟨hf1, hf2, hfs⟩ := hwf f (List.mem_cons_self f fs)
    have hwf' : ∀ g ∈ fs, 1 ≤ g.2 ∧ g.2 ≤ 10 ∧ g.1 < 2 ^ 56 :=
      fun g hg => hwf g (List.mem_cons_of_mem f hg)
    have hassoc :
        P ++ ((List.map (fun f => entryWord f.1 f.2) (f :: fs)).join ++
          (entryWord 0 tagEnd ++ rest))
        = P ++ (entryWord f.1 f.2 ++
            ((List.map (fun f => entryWord f.1 f.2) fs).join ++
              (entryWord 0 tagEnd ++ rest))) := by
      simp [List.append_assoc]
    rw [hassoc]
    have hword : readBytes
        (P ++ (entryWord f.1 f.2 ++
          ((List.map (fun f => entryWord f.1 f.2) fs).join ++
            (entryWord 0 tagEnd ++ rest)))) P.length 8
        = f.1 + 2 ^ 56 * f.2 := by
      rw [readBytes_at_append]
      exact readBytes_entryWord f.1 f.2 _ hfs (by omega)
    have hstep : handleNextRefCount (DestroyHandler env m addr) env md
        (P ++ (entryWord f.1 f.2 ++
          ((List.map (fun f => entryWord f.1 f.2) fs).join ++
            (entryWord 0 tagEnd ++ rest)))) base P.length aoff
        = .stepped (P.length + 8) (aoff + f.1)
            [releaseEvent m addr f.2 (aoff + f.1)] := by
      unfold handleNextRefCount
      simp only [hword, entryWord_div f.1 f.2 hfs, entryWord_mod f.1 f.2 hfs]
      rw [if_neg (by simp only [tagEnd]; omega : ¬f.2 = tagEnd),
        if_neg (by simp only [tagMetatype]; omega : ¬f.2 = tagMetatype),
        if_neg (by simp only [tagResilient]; omega : ¬f.2 = tagResilient),
        if_neg (by simp only [tagSinglePayloadEnumSimple]; omega :
          ¬f.2 = tagSinglePayloadEnumSimple)]
      rw [show (DestroyHandler env m addr).onReference f.2 (aoff + f.1)
            = some [releaseEvent m addr f.2 (aoff + f.1)] from
          destroyReference_managed env m addr (aoff + f.1) f.2 hf1 hf2]
    have hre : P ++ (entryWord f.1 f.2 ++
          ((List.map (fun f => entryWord f.1 f.2) fs).join ++
            (entryWord 0 tagEnd ++ rest)))
        = (P ++ entryWord f.1 f.2) ++
            ((List.map (fun f => entryWord f.1 f.2) fs).join ++
              (entryWord 0 tagEnd ++ rest)) := by
      simp [List.append_assoc]
    have hlen : P.length + 8 = (P ++ entryWord f.1 f.2).length := by
      simp [entryWord_length]
    rw [show ((f :: fs).length + 1) = fs.length + 1 + 1 from rfl,
      handleRefCountsLoop_step _ env md _ base (fs.length + 1) P.length aoff
        _ _ _ hstep,
      hre, hlen, ih (P ++ entryWord f.1 f.2) rest (aoff + f.1) hwf']
    simp [destroySpecEvents, takePrepend]

lemma destroySpecEvents_length (m : ByteMem) (addr : Nat) :
    ∀ (fields : List (Nat × Nat)) (acc : Nat),
      (destroySpecEvents m addr fields acc).length = fields.length := by
  intro fields
  induction fields with
  | nil => intro acc; rfl
  | cons f fs ih => intro acc; simp [destroySpecEvents, ih]

lemma cumOffsets_chain (fields : List (Nat × Nat)) :
    ∀ acc, List.Chain' (fun x y => x ≤ y) (cumOffsets fields acc) := by
  induction fields with
  | nil => intro acc; simp [cumOffsets]
  | cons f fs ih =>
    intro acc
    cases fs with
    | nil => simp [cumOffsets]
    | cons g gs =>
      rw [cumOffsets, cumOffsets, List.chain'_cons]
      refine ⟨by omega, ?_⟩
      rw [← cumOffsets]
      exact ih (acc + f.1)

lemma destroySpecEvents_eq_zip (m : ByteMem) (addr : Nat) :
    ∀ (fields : List (Nat × Nat)) (acc : Nat),
      destroySpecEvents m addr fields acc
        = List.zipWith (fun t o => releaseEvent m addr t o)
            (fields.map Prod.snd) (cumOffsets fields acc) := by
  intro fields
  induction fields with
  | nil => intro acc; rfl
  | cons f fs ih => intro acc; simp [destroySpecEvents, cumOffsets, ih]

/-- C6: for a value whose layout string lists exactly the given managed
fields as (skip, tag) pairs — tags among the ten concrete managed ownership
kinds — followed by the End entry, swift_generic_destroy performs exactly
one release call per listed field, never more and never fewer: the trace is
exactly the per-field release list, its length is the field count, the
calls pair the field tags with the cumulative byte offsets in entry order,
and those cumulative offsets ascend. -/
theorem destroy_exact_fanout (env : Env) (m : ByteMem)
    (addr metadata : Nat) (hdr rest : List Nat)
    (fields : List (Nat × Nat))
    (hwf : ∀ f ∈ fields, 1 ≤ f.2 ∧ f.2 ≤ 10 ∧ f.1 < 2 ^ 56)
    (hhdr : hdr.length = 16)
    (hlay : env.layoutOf metadata = hdr ++
      ((fields.map fun f => entryWord f.1 f.2).join ++
        (entryWord 0 tagEnd ++ rest))) :
    swift_generic_destroy env addr metadata m (fields.length + 1)
      = .ok (destroySpecEvents m addr fields 0) ∧
    (destroySpecEvents m addr fields 0).length = fields.length ∧
    destroySpecEvents m addr fields 0
      = List.zipWith (fun t o => releaseEvent m addr t o)
          (fields.map Prod.snd) (cumOffsets fields 0) ∧
    List.Chain' (fun x y => x ≤ y) (cumOffsets fields 0) := by
  refine ⟨?_, destroySpecEvents_length m addr fields 0,
    destroySpecEvents_eq_zip m addr fields 0, cumOffsets_chain fields 0⟩
  unfold swift_generic_destroy handleRefCounts
  rw [hlay]
  rw [show layoutStringHeaderSize = hdr.length by
    simp [layoutStringHeaderSize, ptrSize, hhdr]]
  exact destroyLoop_fields env m addr metadata (env.layoutBase metadata)
    fields hdr rest 0 hwf

/-- A concrete environment with two native strong fields at offsets 0 and 8
followed by End. -/
def envC6 : Env where
  vwSize := fun _ => 16
  isBitwiseTakable := fun _ => false
  isValueInline := fun _ => true
  layoutOf := fun _ => List.replicate 16 0 ++
    ((([(0, 2), (8, 2)] : List (Nat × Nat)).map
        fun f => entryWord f.1 f.2).join ++
      (entryWord 0 tagEnd ++ []))
  layoutBase := fun _ => 0
  resolveAccessor := fun _ _ => 0

theorem destroy_exact_fanout_witness :
    (∀ f ∈ ([(0, 2), (8, 2)] : List (Nat × Nat)),
      1 ≤ f.2 ∧ f.2 ≤ 10 ∧ f.1 < 2 ^ 56) ∧
    (swift_generic_destroy envC6 500 0 (fun _ => 0) 3
        = .ok (destroySpecEvents (fun _ => 0) 500 [(0, 2), (8, 2)] 0) ∧
      (destroySpecEvents (fun _ => 0) 500 [(0, 2), (8, 2)] 0).length
        = ([(0, 2), (8, 2)] : List (Nat × Nat)).length ∧
      destroySpecEvents (fun _ => 0) 500 [(0, 2), (8, 2)] 0
        = List.zipWith (fun t o => releaseEvent (fun _ => 0) 500 t o)
            (([(0, 2), (8, 2)] : List (Nat × Nat)).map Prod.snd)
            (cumOffsets [(0, 2), (8, 2)] 0) ∧
      List.Chain' (fun x y => x ≤ y) (cumOffsets [(0, 2), (8, 2)] 0)) :=
  ⟨by decide,
    destroy_exact_fanout envC6 (fun _ => 0) 500 0 (List.replicate 16 0) []
      [(0, 2), (8, 2)] (by decide) (by decide) rfl⟩

/-- A layout-string entry as the resilient patch pass parses it: an inline
Metatype pointer (16 bytes), a Resilient relative accessor word (16 bytes),
a SinglePayloadEnumSimple parameter block (the patch pass hops 56 bytes
after the entry word), or any other tag, which for the patch pass is just
its 8-byte entry word. -/
inductive LEntry where
  | metatypeE (skip ptr : Nat)
  | resilientE (skip rel : Nat)
  | spesE (skip : Nat) (payload : List Nat)
  | simpleE (skip tag : Nat)
  deriving DecidableEq

/-- The byte encoding of one entry. -/
def encodeEntry : LEntry → List Nat
  | .metatypeE skip ptr =>
    toLEBytes 8 (skip + 2 ^ 56 * tagMetatype) ++ toLEBytes 8 ptr
  | .resilientE skip rel =>
    toLEBytes 8 (skip + 2 ^ 56 * tagResilient) ++ toLEBytes 8 rel
  | .spesE skip payload =>
    toLEBytes 8 (skip + 2 ^ 56 * tagSinglePayloadEnumSimple) ++ payload
  | .simpleE skip tag => toLEBytes 8 (skip + 2 ^ 56 * tag)

/-- The byte encoding of an entry sequence. -/
def encodeEntries : List LEntry → List Nat
  | [] => []
  | e :: es => encodeEntry e ++ encodeEntries es

/-- Well-formedness of an entry for the patch pass: skips fit 56 bits, a
simple entry's tag is an actual byte and not one of the three specially
parsed kinds, and an enum parameter block is exactly the 56 bytes the patch
pass hops. -/
def entryWF : LEntry → Prop
  | .metatypeE skip _ => skip < 2 ^ 56
  | .resilientE skip _ => skip < 2 ^ 56
  | .spesE skip payload => skip < 2 ^ 56 ∧ payload.length = 56
  | .simpleE skip tag => skip < 2 ^ 56 ∧ tag < 256 ∧ tag ≠ tagMetatype ∧
      tag ≠ tagResilient ∧ tag ≠ tagSinglePayloadEnumSimple

/-- The metadata the resolver produces for a Resilient entry whose relative
accessor word sits at cursor offset off: the accessor at the absolute
address of that position plus the sign-extended low 32 bits of the word,
called on the owner's generic arguments. -/
def resolveAt (env : Env) (fieldType fieldBase off rel : Nat) : Nat :=
  env.resolveAccessor fieldType
    ((((fieldBase + off : Int) + signExt32 rel).emod (2 ^ 64)).toNat)

/-- What the patch pass leaves of one entry whose word starts at pos: a
Resilient entry becomes a Metatype entry keeping the original skip and
carrying the resolved metadata pointer; every other entry is untouched. -/
def patchEntry (env : Env) (fieldType fieldBase pos : Nat) : LEntry → LEntry
  | .resilientE skip rel =>
    .metatypeE skip (resolveAt env fieldType fieldBase (pos + 8) rel)
  | e => e

/-- The patch pass over an entry sequence starting at byte position pos. -/
def patchEntries (env : Env) (fieldType fieldBase : Nat) :
    Nat → List LEntry → List LEntry
  | _, [] => []
  | pos, e :: es =>
    patchEntry env fieldType fieldBase pos e ::
      patchEntries env fieldType fieldBase (pos + (encodeEntry e).length) es

/-- The in-place buffer transformation the patch loop performs over an
entry sequence whose words start at byte position pos: a Resilient entry
gets its word rewritten with the Metatype tag (skip kept) and its accessor
word overwritten by the resolved metadata pointer; other entries leave the
buffer untouched. -/
def applyPatches (env : Env) (fieldType fieldBase : Nat) :
    List LEntry → Nat → List Nat → List Nat
  | [], _, B => B
  | .resilientE skip rel :: es, pos, B =>
    applyPatches env fieldType fieldBase es (pos + 16)
      (writeBytes
        (writeBytes B pos 8 (2 ^ 56 * tagMetatype + skip))
        (pos + 8) 8 (resolveAt env fieldType fieldBase (pos + 8) rel))
  | e :: es, pos, B =>
    applyPatches env fieldType fieldBase es (pos + (encodeEntry e).length) B

lemma signExt32_mod (v : Nat) : signExt32 (v % 2 ^ 64) = signExt32 v := by
  unfold signExt32
  rw [Nat.mod_mod_of_dvd v (by norm_num : (2 : Nat) ^ 32 ∣ 2 ^ 64)]

lemma readBytes_word_at (P T : List Nat) (skip t : Nat) (hs : skip < 2 ^ 56)
    (ht : t < 256) :
    readBytes (P ++ (toLEBytes 8 (skip + 2 ^ 56 * t) ++ T)) P.length 8
      = skip + 2 ^ 56 * t := by
  rw [readBytes_at_append, readBytes_toLEBytes,
    show (256 : Nat) ^ 8 = 2 ^ 64 by norm_num]
  exact Nat.mod_eq_of_lt (entryWord_lt skip t hs ht)

lemma readBytes_second_word (P A T : List Nat) (rel : Nat) (hA : A.length = 8) :
    readBytes (P ++ (A ++ (toLEBytes 8 rel ++ T))) (P.length + 8) 8
      = rel % 2 ^ 64 := by
  rw [show P ++ (A ++ (toLEBytes 8 rel ++ T))
      = (P ++ A) ++ (toLEBytes 8 rel ++ T) by simp [List.append_assoc],
    show P.length + 8 = (P ++ A).length by simp [hA],
    readBytes_at_append, readBytes_toLEBytes]
  norm_num

lemma getResilient_encoded (env : Env) (ft fb : Nat) (P A T : List Nat)
    (rel : Nat) (hA : A.length = 8) :
    getResilientTypeMetadata env ft fb
        (P ++ (A ++ (toLEBytes 8 rel ++ T))) (P.length + 8)
      = (resolveAt env ft fb (P.length + 8) rel, P.length + 8 + 8) := by
  unfold getResilientTypeMetadata resolveAt
  rw [readBytes_second_word P A T rel hA]
  simp only [signExt32_mod]

lemma resolveLoop_entries (env : Env) (fieldType fieldBase : Nat) :
    ∀ (es : List LEntry) (P rest B : List Nat),
      (∀ e ∈ es, entryWF e) →
      resolveLoop env fieldType fieldBase (P ++ (encodeEntries es ++ rest)) 16
          (P.length + (encodeEntries es).length) (es.length + 1) P.length B
        = some (applyPatches env fieldType fieldBase es P.length B) := by
  intro es
  induction es with
  | nil =>
    intro P rest B hwf
    rw [resolveLoop]
    simp [encodeEntries, applyPatches]
  | cons e es ih =>
    intro P rest B hwf
    have hwf' : ∀ g ∈ es, entryWF g :=
      fun g hg => hwf g (List.mem_cons_of_mem e hg)
    have hwfe : entryWF e := hwf e (List.mem_cons_self e es)
    cases e with
    | simpleE skip tag =>
      obtain ⟨hs, ht, h12, h15, h16⟩ := hwfe
      rw [show P ++ (encodeEntries (LEntry.simpleE skip tag :: es) ++ rest)
          = P ++ (toLEBytes 8 (skip + 2 ^ 56 * tag) ++
              (encodeEntries es ++ rest)) by
        simp [encodeEntries, encodeEntry, List.append_assoc]]
      rw [show P.length + (encodeEntries (LEntry.simpleE skip tag :: es)).length
          = P.length + 8 + (encodeEntries es).length by
        simp [encodeEntries, encodeEntry, toLEBytes_length] <;> omega]
      rw [show (LEntry.simpleE skip tag :: es).length + 1
          = es.length + 1 + 1 from rfl]
      rw [resolveLoop]
      simp only []
      rw [if_pos (by omega : P.length < P.length + 8 + (encodeEntries es).length)]
      rw [readBytes_word_at P _ skip tag hs ht,
        entryWord_div skip tag hs, entryWord_mod skip tag hs,
        if_neg h15, if_neg h12, if_neg h16]
      rw [show P ++ (toLEBytes 8 (skip + 2 ^ 56 * tag) ++
            (encodeEntries es ++ rest))
          = (P ++ toLEBytes 8 (skip + 2 ^ 56 * tag)) ++
              (encodeEntries es ++ rest) by simp [List.append_assoc]]
      rw [show P.length + 8
          = (P ++ toLEBytes 8 (skip + 2 ^ 56 * tag)).length by
        simp [toLEBytes_length]]
      rw [ih (P ++ toLEBytes 8 (skip + 2 ^ 56 * tag)) rest B hwf']
      simp [applyPatches, encodeEntry, toLEBytes_length]
    | metatypeE skip ptr =>
      have hs : skip < 2 ^ 56 := hwfe
      rw [show P ++ (encodeEntries (LEntry.metatypeE skip ptr :: es) ++ rest)
          = P ++ (toLEBytes 8 (skip + 2 ^ 56 * tagMetatype) ++
              (toLEBytes 8 ptr ++ (encodeEntries es ++ rest))) by
        simp [encodeEntries, encodeEntry, List.append_assoc]]
      rw [show P.length +
            (encodeEntries (LEntry.metatypeE skip ptr :: es)).length
          = P.length + 16 + (encodeEntries es).length by
        simp [encodeEntries, encodeEntry, toLEBytes_length] <;> omega]
      rw [show (LEntry.metatypeE skip ptr :: es).length + 1
          = es.length + 1 + 1 from rfl]
      rw [resolveLoop]
      simp only []
      rw [if_pos (by omega :
        P.length < P.length + 16 + (encodeEntries es).length)]
      rw [readBytes_word_at P _ skip tagMetatype hs (by norm_num [tagMetatype]),
        entryWord_div skip tagMetatype hs, entryWord_mod skip tagMetatype hs,
        if_neg (by norm_num [tagMetatype, tagResilient] :
          ¬tagMetatype = tagResilient),
        if_pos (rfl : tagMetatype = tagMetatype)]
      rw [show P ++ (toLEBytes 8 (skip + 2 ^ 56 * tagMetatype) ++
            (toLEBytes 8 ptr ++ (encodeEntries es ++ rest)))
          = ((P ++ toLEBytes 8 (skip + 2 ^ 56 * tagMetatype)) ++
              toLEBytes 8 ptr) ++ (encodeEntries es ++ rest) by
        simp [List.append_assoc]]
      rw [show P.length + 8 + 8
          = (((P ++ toLEBytes 8 (skip + 2 ^ 56 * tagMetatype)) ++
              toLEBytes 8 ptr)).length by simp [toLEBytes_length]]
      rw [ih ((P ++ toLEBytes 8 (skip + 2 ^ 56 * tagMetatype)) ++
          toLEBytes 8 ptr) rest B hwf']
      simp [applyPatches, encodeEntry, toLEBytes_length]
    | spesE skip payload =>
      obtain ⟨hs, hp⟩ := hwfe
      rw [show P ++ (encodeEntries (LEntry.spesE skip payload :: es) ++ rest)
          = P ++ (toLEBytes 8 (skip + 2 ^ 56 * tagSinglePayloadEnumSimple) ++
              (payload ++ (encodeEntries es ++ rest))) by
        simp [encodeEntries, encodeEntry, List.append_assoc]]
      rw [show P.length +
            (encodeEntries (LEntry.spesE skip payload :: es)).length
          = P.length + 64 + (encodeEntries es).length by
        simp [encodeEntries, encodeEntry, toLEBytes_length, hp] <;> omega]
      rw [show (LEntry.spesE skip payload :: es).length + 1
          = es.length + 1 + 1 from rfl]
      rw [resolveLoop]
      simp only []
      rw [if_pos (by omega :
        P.length < P.length + 64 + (encodeEntries es).length)]
      rw [readBytes_word_at P _ skip tagSinglePayloadEnumSimple hs
          (by norm_num [tagSinglePayloadEnumSimple]),
        entryWord_div skip tagSinglePayloadEnumSimple hs,
        entryWord_mod skip tagSinglePayloadEnumSimple hs,
        if_neg (by norm_num [tagSinglePayloadEnumSimple, tagResilient] :
          ¬tagSinglePayloadEnumSimple = tagResilient),
        if_neg (by norm_num [tagSinglePayloadEnumSimple, tagMetatype] :
          ¬tagSinglePayloadEnumSimple = tagMetatype),
        if_pos (rfl : tagSinglePayloadEnumSimple = tagSinglePayloadEnumSimple)]
      rw [show P ++ (toLEBytes 8 (skip + 2 ^ 56 * tagSinglePayloadEnumSimple) ++
            (payload ++ (encodeEntries es ++ rest)))
          = ((P ++ toLEBytes 8 (skip + 2 ^ 56 * tagSinglePayloadEnumSimple)) ++
              payload) ++ (encodeEntries es ++ rest) by
        simp [List.append_assoc]]
      rw [show P.length + 8 + 56
          = (((P ++ toLEBytes 8 (skip + 2 ^ 56 * tagSinglePayloadEnumSimple)) ++
              payload)).length by simp [toLEBytes_length, hp]]
      rw [ih ((P ++ toLEBytes 8 (skip + 2 ^ 56 * tagSinglePayloadEnumSimple)) ++
          payload) rest B hwf']
      simp [applyPatches, encodeEntry, toLEBytes_length, hp]
    | resilientE skip rel =>
      have hs : skip < 2 ^ 56 := hwfe
      rw [show P ++ (encodeEntries (LEntry.resilientE skip rel :: es) ++ rest)
          = P ++ (toLEBytes 8 (skip + 2 ^ 56 * tagResilient) ++
              (toLEBytes 8 rel ++ (encodeEntries es ++ rest))) by
        simp [encodeEntries, encodeEntry, List.append_assoc]]
      rw [show P.length +
            (encodeEntries (LEntry.resilientE skip rel :: es)).length
          = P.length + 16 + (encodeEntries es).length by
        simp [encodeEntries, encodeEntry, toLEBytes_length] <;> omega]
      rw [show (LEntry.resilientE skip rel :: es).length + 1
          = es.length + 1 + 1 from rfl]
      rw [resolveLoop]
      simp only []
      rw [if_pos (by omega :
        P.length < P.length + 16 + (encodeEntries es).length)]
      rw [readBytes_word_at P _ skip tagResilient hs (by norm_num [tagResilient]),
        entryWord_div skip tagResilient hs, entryWord_mod skip tagResilient hs,
        if_pos (rfl : tagResilient = tagResilient)]
      rw [getResilient_encoded env fieldType fieldBase P
          (toLEBytes 8 (skip + 2 ^ 56 * tagResilient))
          (encodeEntries es ++ rest) rel (toLEBytes_length 8 _)]
      rw [show 16 + P.length - layoutStringHeaderSize = P.length by
        simp only [layoutStringHeaderSize, ptrSize] <;> omega]
      rw [show P ++ (toLEBytes 8 (skip + 2 ^ 56 * tagResilient) ++
            (toLEBytes 8 rel ++ (encodeEntries es ++ rest)))
          = ((P ++ toLEBytes 8 (skip + 2 ^ 56 * tagResilient)) ++
              toLEBytes 8 rel) ++ (encodeEntries es ++ rest) by
        simp [List.append_assoc]]
      rw [show P.length + 8 + 8
          = (((P ++ toLEBytes 8 (skip + 2 ^ 56 * tagResilient)) ++
              toLEBytes 8 rel)).length by simp [toLEBytes_length]]
      rw [ih ((P ++ toLEBytes 8 (skip + 2 ^ 56 * tagResilient)) ++
          toLEBytes 8 rel) rest _ hwf']
      simp only [applyPatches]
      rw [show (((P ++ toLEBytes 8 (skip + 2 ^ 56 * tagResilient)) ++
          toLEBytes 8 rel)).length = P.length + 16 by simp [toLEBytes_length]]

lemma patchEntry_id_of_not_resilient (env : Env) (ft fb pos : Nat)
    (e : LEntry) (h : ∀ s r, e ≠ LEntry.resilientE s r) :
    patchEntry env ft fb pos e = e := by
  cases e with
  | resilientE s r => exact absurd rfl (h s r)
  | metatypeE s p => rfl
  | spesE s p => rfl
  | simpleE s t => rfl

lemma patchEntries_no_resilient (env : Env) (ft fb : Nat) :
    ∀ (es : List LEntry) (pos : Nat),
      ∀ e ∈ patchEntries env ft fb pos es, ∀ s r,
        e ≠ LEntry.resilientE s r := by
  intro es
  induction es with
  | nil =>
    intro pos e he
    exact absurd he (List.not_mem_nil e)
  | cons f fs ih =>
    intro pos e he
    rw [patchEntries] at he
    rcases List.mem_cons.mp he with h | h
    · intro s r
      rw [h]
      cases f <;> simp [patchEntry]
    · exact ih _ e h

lemma applyPatches_encodes (env : Env) (ft fb : Nat) :
    ∀ (es : List LEntry) (Q rest : List Nat),
      applyPatches env ft fb es Q.length (Q ++ (encodeEntries es ++ rest))
        = Q ++ (encodeEntries (patchEntries env ft fb Q.length es) ++ rest) := by
  intro es
  induction es with
  | nil => intro Q rest; rfl
  | cons f fs ih =>
    intro Q rest
    cases f with
    | resilientE skip rel =>
      rw [show Q ++ (encodeEntries (LEntry.resilientE skip rel :: fs) ++ rest)
          = Q ++ (toLEBytes 8 (skip + 2 ^ 56 * tagResilient) ++
              (toLEBytes 8 rel ++ (encodeEntries fs ++ rest))) by
        simp [encodeEntries, encodeEntry, List.append_assoc]]
      rw [applyPatches]
      rw [writeBytes_append 8 Q (toLEBytes 8 (skip + 2 ^ 56 * tagResilient))
          (toLEBytes 8 rel ++ (encodeEntries fs ++ rest))
          (2 ^ 56 * tagMetatype + skip) (toLEBytes_length 8 _)]
      rw [show Q ++ (toLEBytes 8 (2 ^ 56 * tagMetatype + skip) ++
            (toLEBytes 8 rel ++ (encodeEntries fs ++ rest)))
          = (Q ++ toLEBytes 8 (2 ^ 56 * tagMetatype + skip)) ++
              (toLEBytes 8 rel ++ (encodeEntries fs ++ rest)) by
        simp [List.append_assoc]]
      rw [show Q.length + 8
          = (Q ++ toLEBytes 8 (2 ^ 56 * tagMetatype + skip)).length by
        simp [toLEBytes_length]]
      rw [writeBytes_append 8 (Q ++ toLEBytes 8 (2 ^ 56 * tagMetatype + skip))
          (toLEBytes 8 rel) (encodeEntries fs ++ rest)
          (resolveAt env ft fb
            ((Q ++ toLEBytes 8 (2 ^ 56 * tagMetatype + skip)).length) rel)
          (toLEBytes_length 8 _)]
      rw [show (Q ++ toLEBytes 8 (2 ^ 56 * tagMetatype + skip)) ++
            (toLEBytes 8 (resolveAt env ft fb
              ((Q ++ toLEBytes 8 (2 ^ 56 * tagMetatype + skip)).length) rel) ++
              (encodeEntries fs ++ rest))
          = ((Q ++ toLEBytes 8 (2 ^ 56 * tagMetatype + skip)) ++
              toLEBytes 8 (resolveAt env ft fb
                ((Q ++ toLEBytes 8 (2 ^ 56 * tagMetatype + skip)).length) rel)) ++
              (encodeEntries fs ++ rest) by simp [List.append_assoc]]
      rw [show Q.length + 16
          = (((Q ++ toLEBytes 8 (2 ^ 56 * tagMetatype + skip)) ++
              toLEBytes 8 (resolveAt env ft fb
                ((Q ++ toLEBytes 8 (2 ^ 56 * tagMetatype + skip)).length)
                rel))).length by simp [toLEBytes_length]]
      rw [ih ((Q ++ toLEBytes 8 (2 ^ 56 * tagMetatype + skip)) ++
          toLEBytes 8 (resolveAt env ft fb
            ((Q ++ toLEBytes 8 (2 ^ 56 * tagMetatype + skip)).length) rel))
          rest]
      rw [patchEntries]
      simp only [patchEntry, encodeEntries, encodeEntry]
      rw [show (Q ++ toLEBytes 8 (2 ^ 56 * tagMetatype + skip)).length
          = Q.length + 8 by simp [toLEBytes_length]]
      rw [show (((Q ++ toLEBytes 8 (2 ^ 56 * tagMetatype + skip)) ++
          toLEBytes 8 (resolveAt env ft fb (Q.length + 8) rel))).length
          = Q.length + 16 by simp [toLEBytes_length]]
      rw [show (2 : Nat) ^ 56 * tagMetatype + skip
          = skip + 2 ^ 56 * tagMetatype by omega]
      simp [toLEBytes_length, List.append_assoc]
    | metatypeE skip ptr =>
      rw [show Q ++ (encodeEntries (LEntry.metatypeE skip ptr :: fs) ++ rest)
          = (Q ++ encodeEntry (LEntry.metatypeE skip ptr)) ++
              (encodeEntries fs ++ rest) by
        simp [encodeEntries, List.append_assoc]]
      rw [applyPatches]
      rw [show Q.length + (encodeEntry (LEntry.metatypeE skip ptr)).length
          = (Q ++ encodeEntry (LEntry.metatypeE skip ptr)).length by simp]
      rw [ih (Q ++ encodeEntry (LEntry.metatypeE skip ptr)) rest]
      rw [patchEntries]
      simp only [patchEntry]
      rw [show (Q ++ encodeEntry (LEntry.metatypeE skip ptr)).length
          = Q.length + (encodeEntry (LEntry.metatypeE skip ptr)).length by simp]
      simp [encodeEntries, List.append_assoc]
      intro s r h
      exact LEntry.noConfusion h
    | spesE skip payload =>
      rw [show Q ++ (encodeEntries (LEntry.spesE skip payload :: fs) ++ rest)
          = (Q ++ encodeEntry (LEntry.spesE skip payload)) ++
              (encodeEntries fs ++ rest) by
        simp [encodeEntries, List.append_assoc]]
      rw [applyPatches]
      rw [show Q.length + (encodeEntry (LEntry.spesE skip payload)).length
          = (Q ++ encodeEntry (LEntry.spesE skip payload)).length by simp]
      rw [ih (Q ++ encodeEntry (LEntry.spesE skip payload)) rest]
      rw [patchEntries]
      simp only [patchEntry]
      rw [show (Q ++ encodeEntry (LEntry.spesE skip payload)).length
          = Q.length + (encodeEntry (LEntry.spesE skip payload)).length by simp]
      simp [encodeEntries, List.append_assoc]
      intro s r h
      exact LEntry.noConfusion h
    | simpleE skip tag =>
      rw [show Q ++ (encodeEntries (LEntry.simpleE skip tag :: fs) ++ rest)
          = (Q ++ encodeEntry (LEntry.simpleE skip tag)) ++
              (encodeEntries fs ++ rest) by
        simp [encodeEntries, List.append_assoc]]
      rw [applyPatches]
      rw [show Q.length + (encodeEntry (LEntry.simpleE skip tag)).length
          = (Q ++ encodeEntry (LEntry.simpleE skip tag)).length by simp]
      rw [ih (Q ++ encodeEntry (LEntry.simpleE skip tag)) rest]
      rw [patchEntries]
      simp only [patchEntry]
      rw [show (Q ++ encodeEntry (LEntry.simpleE skip tag)).length
          = Q.length + (encodeEntry (LEntry.simpleE skip tag)).length by simp]
      simp [encodeEntries, List.append_assoc]
      intro s r h
      exact LEntry.noConfusion h

/-- C8: one call of swift_resolve_resilientAccessors over an in-place
buffer (destination and source the same string, write offset at the header
end) whose refCountBytes range encodes the given entries rewrites exactly
the Resilient entries: the result is the same string with each Resilient
entry replaced in place by a Metatype entry keeping the original skip and
carrying the metadata resolved from its accessor, no Resilient entry
remains in the patched range, and every non-Resilient entry is byte-for-byte
unmodified (the patch maps it to itself). -/
theorem resolveResilient_patches_in_place (env : Env)
    (fieldType fieldBase : Nat) (hdr rest : List Nat) (es : List LEntry)
    (hh : hdr.length = 16)
    (hwf : ∀ e ∈ es, entryWF e) :
    swift_resolve_resilientAccessors env
        (hdr ++ (encodeEntries es ++ rest)) 16
        (hdr ++ (encodeEntries es ++ rest)) fieldBase
        (encodeEntries es).length fieldType (es.length + 1)
      = some (hdr ++
          (encodeEntries (patchEntries env fieldType fieldBase 16 es) ++
            rest)) ∧
    (∀ e ∈ patchEntries env fieldType fieldBase 16 es, ∀ s r,
      e ≠ LEntry.resilientE s r) ∧
    (∀ pos e, (∀ s r, e ≠ LEntry.resilientE s r) →
      patchEntry env fieldType fieldBase pos e = e) := by
  refine ⟨?_, ?_, fun pos e he =>
    patchEntry_id_of_not_resilient env fieldType fieldBase pos e he⟩
  · unfold swift_resolve_resilientAccessors
    rw [show layoutStringHeaderSize = hdr.length by
      simp [layoutStringHeaderSize, ptrSize, hh]]
    rw [resolveLoop_entries env fieldType fieldBase es hdr rest
        (hdr ++ (encodeEntries es ++ rest)) hwf]
    rw [applyPatches_encodes env fieldType fieldBase es hdr rest]
    rw [hh]
  · rw [show (16 : Nat) = hdr.length from hh.symm]
    exact patchEntries_no_resilient env fieldType fieldBase es hdr.length

theorem resolveResilient_patches_in_place_witness :
    (List.replicate 16 0).length = 16 ∧
    (∀ e ∈ [LEntry.resilientE 0 0, LEntry.simpleE 0 2], entryWF e) ∧
    (swift_resolve_resilientAccessors env0
        (List.replicate 16 0 ++
          (encodeEntries [LEntry.resilientE 0 0, LEntry.simpleE 0 2] ++ [])) 16
        (List.replicate 16 0 ++
          (encodeEntries [LEntry.resilientE 0 0, LEntry.simpleE 0 2] ++ []))
        5 (encodeEntries [LEntry.resilientE 0 0, LEntry.simpleE 0 2]).length
        7 ([LEntry.resilientE 0 0, LEntry.simpleE 0 2].length + 1)
      = some (List.replicate 16 0 ++
          (encodeEntries (patchEntries env0 7 5 16
            [LEntry.resilientE 0 0, LEntry.simpleE 0 2]) ++ [])) ∧
    (∀ e ∈ patchEntries env0 7 5 16
        [LEntry.resilientE 0 0, LEntry.simpleE 0 2], ∀ s r,
      e ≠ LEntry.resilientE s r) ∧
    (∀ pos e, (∀ s r, e ≠ LEntry.resilientE s r) →
      patchEntry env0 7 5 pos e = e)) :=
  ⟨by simp, by
    intro e he
    fin_cases he <;>
      norm_num [entryWF, tagMetatype, tagResilient, tagSinglePayloadEnumSimple],
    resolveResilient_patches_in_place env0 7 5 (List.replicate 16 0) []
      [LEntry.resilientE 0 0, LEntry.simpleE 0 2] (by simp) (by
        intro e he
        fin_cases he <;>
          norm_num [entryWF, tagMetatype, tagResilient,
            tagSinglePayloadEnumSimple])⟩
